import Mathlib

/-!
Shallow embedding of the `crawl` DSL runtime (scanner, parser, interpreter,
dice engine, table engine, fact database) translated from the Rust sources
`src/scanner.rs`, `src/parser.rs`, `src/interpreter.rs`, `src/dice.rs`,
`src/tables.rs`, `src/facts.rs`, `src/rolls.rs`, together with theorems
about the embedded definitions.

Modelling conventions:
- Rust `i32` values are modelled as `Int`; the only places where the `i32`
  range matters are the `str::parse::<i32>` calls in the scanner and the
  dice-specifier parser, where an out-of-range literal makes `parse` fail
  and the surrounding `expect`/`unwrap` abort; `parseI32` returns `none`
  there.
- A Rust panic (`unwrap`, `expect`, array indexing) is modelled as `none`
  in an outer `Option` layer; ordinary `Result` values are `Except`.
- `rand::thread_rng().gen_range(1..=sides)` is modelled by consuming the
  next value of an explicit stream of draws (`List Int`) threaded through
  the evaluator state; an exhausted stream yields 1.
- `HashMap` is modelled as an association list with overwriting insert and
  first-match lookup; `HashSet<Fact>` is modelled as `Finset Fact`.
- `char::is_numeric` / `char::is_alphabetic` are modelled by the ASCII
  predicates `Char.isDigit` / `Char.isAlpha`.
- Apostrophes and quote characters inside Rust error-message literals are
  dropped (e.g. `cant be a dice roll and dice range`); the claims do not
  depend on the exact message text.
-/

namespace Crawl

/-- Tokens produced by the scanner (`src/scanner.rs`).  The variants
`Load`, `Percent` and `PersistentFactTest` are referenced by
`src/parser.rs` and are included here as part of the same enum. -/
inductive Token where
  | Arrow
  | ClearFact
  | ClearPersistentFact
  | Concat
  | End
  | Eof
  | FactTest
  | Identifier (name : String)
  | If
  | Indent
  | Minus
  | Newline
  | Num (n : Int)
  | NumRange (lo hi : Int)
  | On
  | Plus
  | Procedure
  | Reminder
  | Roll
  | RollSpecifier (spec : String)
  | SetFact
  | SetPersistentFact
  | Str (s : String)
  | SwapFact
  | SwapPersistentFact
  | Table
  | Load
  | Percent
  | PersistentFactTest
  deriving DecidableEq

/-- The error taxonomy of `src/error.rs`. -/
inductive CrawlError where
  | ScannerError (position line : Nat) (lexeme reason : String)
  | ParserError (token : String)
  | InterpreterError (reason : String)
  deriving DecidableEq

/-- A fact triple (`src/facts.rs`).  The Rust field `attribute` is renamed
`attrib` because `attribute` is a Lean keyword. -/
structure Fact where
  entity : String
  attrib : String
  value : String
  deriving DecidableEq

/-- Rust `str::split_once(" ")`: split at the first space character. -/
def split_once_space : List Char → Option (List Char × List Char)
  | [] => none
  | c :: cs =>
    if c = ' ' then some ([], cs)
    else
      match split_once_space cs with
      | some (a, b) => some (c :: a, b)
      | none => none

/-- `impl TryFrom<String> for Fact` (`src/facts.rs` lines 12-34). -/
def Fact.try_from (value : String) : Except CrawlError Fact :=
  match split_once_space value.toList with
  | some (entity, tail) =>
    match split_once_space tail with
    | some (attrib, val) =>
      .ok { entity := String.mk entity, attrib := String.mk attrib,
            value := String.mk val }
    | none => .error (.InterpreterError "couldnt convert to Fact")
  | none => .error (.InterpreterError "couldnt convert to Fact")

/-- The fact database (`src/facts.rs`): a `HashSet<Fact>`. -/
structure FactDatabase where
  facts : Finset Fact
  deriving DecidableEq

def FactDatabase.check (db : FactDatabase) (f : Fact) : Bool :=
  decide (f ∈ db.facts)

def FactDatabase.set (db : FactDatabase) (f : Fact) : FactDatabase :=
  ⟨insert f db.facts⟩

def FactDatabase.clear (db : FactDatabase) (f : Fact) : FactDatabase :=
  ⟨db.facts.erase f⟩

def FactDatabase.default : FactDatabase := ⟨∅⟩

/-- Roll targets (`src/rolls.rs`). -/
inductive RollTarget where
  | Num (n : Int)
  | NumRange (lo hi : Int)
  | OverOrEqual (n : Int)
  deriving DecidableEq

/-! ## Dice engine (`src/dice.rs`) -/

structure Die where
  sides : Int
  deriving DecidableEq

structure DicePool where
  dice : List Die
  deriving DecidableEq

structure DicePoolRollResult where
  results : List Int
  deriving DecidableEq

structure DiceRollResult where
  pool_result : DicePoolRollResult
  modifier : Int
  total : Int
  deriving DecidableEq

structure DiceRoll where
  dice_pool : DicePool
  modifier : Int
  deriving DecidableEq

/-- `Die::roll`: draw the next value of the random stream (the stream models
the sequence of values `gen_range(1..=sides)` produces). -/
def Die.rollWith (_d : Die) (rolls : List Int) : Int × List Int :=
  match rolls with
  | [] => (1, [])
  | r :: rest => (r, rest)

/-- `DicePool::roll`: roll every die in order, threading the stream. -/
def DicePool.rollDice : List Die → List Int → List Int × List Int
  | [], rolls => ([], rolls)
  | d :: ds, rolls =>
    let p := d.rollWith rolls
    let q := DicePool.rollDice ds p.2
    (p.1 :: q.1, q.2)

def DicePool.rollWith (p : DicePool) (rolls : List Int) :
    DicePoolRollResult × List Int :=
  let q := DicePool.rollDice p.dice rolls
  (⟨q.1⟩, q.2)

/-- `DiceRoll::roll`: sum the pool draws and add the fixed modifier. -/
def DiceRoll.rollWith (dr : DiceRoll) (rolls : List Int) :
    DiceRollResult × List Int :=
  let p := dr.dice_pool.rollWith rolls
  ({ pool_result := p.1, modifier := dr.modifier,
     total := p.1.results.foldl (· + ·) 0 + dr.modifier }, p.2)

/-- `ModifiedRollSpecifier` (`src/parser.rs`). -/
structure ModifiedRollSpecifier where
  base_roll_specifier : Token
  modifier : Int
  deriving DecidableEq

def natOfDigits (cs : List Char) : Nat :=
  cs.foldl (fun a c => a * 10 + (c.toNat - 48)) 0

/-- Rust `str::parse::<i32>` on a lexeme: succeeds exactly on a non-empty
all-digit string whose value fits in an `i32`. -/
def parseI32 (cs : List Char) : Option Int :=
  if cs ≠ [] ∧ cs.all Char.isDigit then
    if natOfDigits cs ≤ 2147483647 then some (Int.ofNat (natOfDigits cs))
    else none
  else none

/-- The regex search of `(?<n_dice>\d+)*d(?<n_sides>\d+)` over a specifier
string: the leftmost match uses the first `d` that is followed by a digit;
the `n_dice` group participates exactly when a digit run immediately
precedes that `d`.  `none` models the `expect` panics on a failed search,
a non-participating group, or an out-of-range `parse::<i32>`. -/
def parseRollSpecAux : List Char → List Char → Option (Int × Int)
  | pre, 'd' :: c :: rest =>
    if c.isDigit then
      let preDigits := (pre.takeWhile Char.isDigit).reverse
      if preDigits = [] then none
      else
        match parseI32 preDigits, parseI32 ((c :: rest).takeWhile Char.isDigit) with
        | some nDice, some nSides => some (nDice, nSides)
        | _, _ => none
    else parseRollSpecAux ('d' :: pre) (c :: rest)
  | pre, c :: rest => parseRollSpecAux (c :: pre) rest
  | _, [] => none

def parseRollSpec (s : String) : Option (Int × Int) :=
  parseRollSpecAux [] s.toList

def reprToken : Token → String
  | .Arrow => "Arrow"
  | .ClearFact => "ClearFact"
  | .ClearPersistentFact => "ClearPersistentFact"
  | .Concat => "Concat"
  | .End => "End"
  | .Eof => "Eof"
  | .FactTest => "FactTest"
  | .Identifier n => "Identifier(\"" ++ n ++ "\")"
  | .If => "If"
  | .Indent => "Indent"
  | .Minus => "Minus"
  | .Newline => "Newline"
  | .Num n => "Num(" ++ toString n ++ ")"
  | .NumRange a b => "NumRange(" ++ toString a ++ ", " ++ toString b ++ ")"
  | .On => "On"
  | .Plus => "Plus"
  | .Procedure => "Procedure"
  | .Reminder => "Reminder"
  | .Roll => "Roll"
  | .RollSpecifier s => "RollSpecifier(\"" ++ s ++ "\")"
  | .SetFact => "SetFact"
  | .SetPersistentFact => "SetPersistentFact"
  | .Str s => "Str(\"" ++ s ++ "\")"
  | .SwapFact => "SwapFact"
  | .SwapPersistentFact => "SwapPersistentFact"
  | .Table => "Table"
  | .Load => "Load"
  | .Percent => "Percent"
  | .PersistentFactTest => "PersistentFactTest"

/-- `format!("{:?}", value)` for a `ModifiedRollSpecifier`. -/
def reprModifiedRollSpecifier (m : ModifiedRollSpecifier) : String :=
  "ModifiedRollSpecifier \x7b base_roll_specifier: " ++
    reprToken m.base_roll_specifier ++ ", modifier: " ++
    toString m.modifier ++ " \x7d"

/-- `impl TryFrom<&ModifiedRollSpecifier> for DiceRoll` (`src/dice.rs`
lines 90-123).  The `ok_or(..).expect(..)` chain means a failed regex
search panics (`none`); a non-`RollSpecifier` base token returns a
`ParserError`. -/
def DiceRoll.try_from (m : ModifiedRollSpecifier) :
    Option (Except CrawlError DiceRoll) :=
  match m.base_roll_specifier with
  | .RollSpecifier spec =>
    match parseRollSpec spec with
    | none => none
    | some (nDice, nSides) =>
      some (.ok { dice_pool := ⟨List.replicate nDice.toNat ⟨nSides⟩⟩,
                  modifier := m.modifier })
  | _ => some (.error (.ParserError (reprModifiedRollSpecifier m)))

/-! ## Table engine (`src/tables.rs`) -/

structure TableEntry where
  roll_target : RollTarget
  value : String
  deriving DecidableEq

structure TableRollResult where
  entry : TableEntry
  deriving DecidableEq

structure Table where
  entries : List TableEntry
  roll_targets : List (Int × Nat)
  min_target : Int
  max_target : Int
  clamp_to_min : Bool
  clamp_to_max : Bool
  deriving DecidableEq

/-- `HashMap::insert`: overwrite any previous binding of the key. -/
def hmInsert {κ α : Type} [DecidableEq κ] (k : κ) (v : α)
    (m : List (κ × α)) : List (κ × α) :=
  (k, v) :: m.filter (fun p => p.1 ≠ k)

/-- `HashMap::get`. -/
def hmGet {κ α : Type} [DecidableEq κ] (k : κ) (m : List (κ × α)) : Option α :=
  (m.find? (fun p => decide (p.1 = k))).map Prod.snd

/-- `Table::new` (`src/tables.rs` lines 36-48): `min`/`max` over the keys,
`unwrap` panics (`none`) when the map is empty; both clamp flags are set. -/
def Table.new (entries : List TableEntry) (roll_targets : List (Int × Nat)) :
    Option Table :=
  match (roll_targets.map Prod.fst).min?, (roll_targets.map Prod.fst).max? with
  | some mn, some mx =>
    some { entries := entries, roll_targets := roll_targets,
           min_target := mn, max_target := mx,
           clamp_to_min := true, clamp_to_max := true }
  | _, _ => none

/-- `Table::get_value_for_target` (`src/tables.rs` lines 50-58); the
`entries.get(*entry_idx).unwrap()` panic is the `none` of the inner
`Option.map`. -/
def Table.get_value_for_target (t : Table) (target : Int) :
    Option (Except CrawlError TableRollResult) :=
  match hmGet target t.roll_targets with
  | some entry_idx => (t.entries.get? entry_idx).map (fun e => .ok ⟨e⟩)
  | none =>
    some (.error (.InterpreterError
      ("target " ++ toString target ++ " not a valid index for table")))

def reprDiceRollResult (rr : DiceRollResult) : String :=
  "DiceRollResult \x7b pool_result: DicePoolRollResult \x7b results: [" ++
    String.intercalate ", "
      (rr.pool_result.results.map (fun n => "DieRollResult(" ++ toString n ++ ")")) ++
    "] \x7d, modifier: " ++ toString rr.modifier ++
    ", total: " ++ toString rr.total ++ " \x7d"

/-- The body of `Table::roll` (`src/tables.rs` lines 60-77) after the dice
have been thrown, as a function of the `DiceRollResult`. -/
def Table.roll_for (t : Table) (rr : DiceRollResult) :
    Option (Except CrawlError TableRollResult) :=
  match hmGet rr.total t.roll_targets with
  | some entry_idx => (t.entries.get? entry_idx).map (fun e => .ok ⟨e⟩)
  | none =>
    if rr.total < t.min_target ∧ t.clamp_to_min = true then
      t.get_value_for_target t.min_target
    else if rr.total > t.max_target ∧ t.clamp_to_max = true then
      t.get_value_for_target t.max_target
    else
      some (.error (.InterpreterError
        ("roll " ++ reprDiceRollResult rr ++ " not a valid index for table")))

/-- `Table::roll`: throw the dice (consuming the random stream), then look
the total up. -/
def Table.roll (t : Table) (dice : DiceRoll) (rolls : List Int) :
    Option (Except CrawlError TableRollResult) × List Int :=
  let p := dice.rollWith rolls
  (t.roll_for p.1, p.2)

/-- `Table::auto_roll` (`src/tables.rs` lines 79-84): one die sized to
`max_target`, modifier 0. -/
def Table.auto_roll (t : Table) (rolls : List Int) :
    Option (Except CrawlError TableRollResult) × List Int :=
  t.roll ⟨⟨[⟨t.max_target⟩]⟩, 0⟩ rolls

/-- The integers covered by a roll target, as computed inside
`impl From<Vec<TableEntry>> for Table` (`src/tables.rs` lines 114-118). -/
def RollTarget.covered_ints : RollTarget → List Int
  | .Num n => [n]
  | .NumRange n m => (List.range (m + 1 - n).toNat).map (fun i : Nat => n + (i : Int))
  | .OverOrEqual n => [n]

/-- The inner loop of the `From` impl: insert every covered integer of one
entry, mapping it to that entry's index. -/
def insertTargets (idx : Nat) (ns : List Int) (m : List (Int × Nat)) :
    List (Int × Nat) :=
  ns.foldl (fun acc n => hmInsert n idx acc) m

/-- The outer loop of the `From` impl over the enumerated entries. -/
def buildRollTargets : List TableEntry → Nat → List (Int × Nat) →
    List (Int × Nat)
  | [], _, m => m
  | e :: rest, idx, m =>
    buildRollTargets rest (idx + 1) (insertTargets idx e.roll_target.covered_ints m)

/-- `impl From<Vec<TableEntry>> for Table` (`src/tables.rs` lines 109-128);
`Option` because `Table::new` panics on an empty key map. -/
def Table.from_entries (l : List TableEntry) : Option Table :=
  Table.new l (buildRollTargets l 0 [])

/-! ## AST (`src/parser.rs`) -/

/-- `Antecedent` (`src/parser.rs` lines 60-68). -/
inductive Antecedent where
  | CheckFact (fact : String)
  | CheckPersistentFact (fact : String)
  | DiceRoll (target : Token) (roll_specifier : ModifiedRollSpecifier)

mutual
/-- `Statement` (`src/parser.rs` lines 8-32). -/
inductive Statement where
  | ClearFact (fact : String)
  | ClearPersistentFact (fact : String)
  | NontargetedRoll (spec : ModifiedRollSpecifier)
  | IfThen (antecedent : Antecedent) (consequent : Statement)
  | LoadTable (name : String)
  | MatchingRoll (roll_specifier : ModifiedRollSpecifier)
      (arms : List MatchingRollArm)
  | Procedure (declaration : String) (body : List Statement)
  | ProcedureCall (name : String)
  | Reminder (text : String)
  | SetFact (fact : CrawlStr)
  | SetPersistentFact (fact : String)
  | TableRoll (name : String)

/-- `CrawlStr` (`src/parser.rs` lines 37-44). -/
inductive CrawlStr where
  | Str (s : String)
  | InterpolatedStr (format_string : String) (expressions : List Statement)

/-- `MatchingRollArm` (`src/parser.rs` lines 54-58). -/
inductive MatchingRollArm where
  | mk (target : Token) (consequent : Statement)
end

def MatchingRollArm.target : MatchingRollArm → Token
  | .mk t _ => t

def MatchingRollArm.consequent : MatchingRollArm → Statement
  | .mk _ c => c

/-! ## Interpreter (`src/interpreter.rs`) -/

/-- `StatementRecord` (`src/interpreter.rs` lines 14-39). -/
inductive StatementRecord where
  | CheckFact (b : Bool)
  | CheckPersistentFact (b : Bool)
  | ClearFact (s : String)
  | ClearPersistentFact (s : String)
  | IfThen (antecedent : Bool) (consequent : Option StatementRecord)
  | LoadTable (s : String)
  | MatchingRoll (matched_target : Option Token)
      (consequent : Option StatementRecord)
  | NontargetedRoll (total : Int)
  | ProcedureCall (identifier : String) (records : List StatementRecord)
  | ProcedureDefinition (s : String)
  | Reminder (s : String)
  | SetFact (s : String)
  | SetPersistentFact (s : String)
  | TableRoll (s : String)

/-- `CrawlProcedure` (`src/interpreter.rs` lines 41-51). -/
structure CrawlProcedure where
  identifier : String
  body : List Statement

/-- The `Interpreter` state (`src/interpreter.rs` lines 53-58), extended
with the model-only fields `rolls` (the pending random draws of the
process-wide RNG) and `files` (the table-file collaborator behind
`Table::load`, as a name-to-table oracle). -/
structure Interpreter where
  procedures : List (String × CrawlProcedure)
  tables : List (String × Table)
  persistent_facts : FactDatabase
  local_facts : FactDatabase
  rolls : List Int
  files : List (String × Table)

def Interpreter.new (rolls : List Int) (files : List (String × Table)) :
    Interpreter :=
  { procedures := [], tables := [],
    persistent_facts := FactDatabase.default,
    local_facts := FactDatabase.default,
    rolls := rolls, files := files }

/-- Rust `Debug` escaping of a string character (`\\`, `\"`, `\n`, `\t`,
`\r`; other characters are kept as-is). -/
def escapeChar (c : Char) : List Char :=
  if c = '\\' then ['\\', '\\']
  else if c = '"' then ['\\', '"']
  else if c = '\n' then ['\\', 'n']
  else if c = '\t' then ['\\', 't']
  else if c = '\r' then ['\\', 'r']
  else [c]

def reprString (s : String) : String :=
  "\"" ++ String.mk (s.toList.flatMap escapeChar) ++ "\""

def reprOptionWith (f : α → String) : Option α → String
  | none => "None"
  | some a => "Some(" ++ f a ++ ")"

mutual
/-- `format!("{:?}", record)` for a `StatementRecord` (derived `Debug`). -/
def reprRecord : StatementRecord → String
  | .CheckFact b => "CheckFact(" ++ toString b ++ ")"
  | .CheckPersistentFact b => "CheckPersistentFact(" ++ toString b ++ ")"
  | .ClearFact s => "ClearFact(" ++ reprString s ++ ")"
  | .ClearPersistentFact s => "ClearPersistentFact(" ++ reprString s ++ ")"
  | .IfThen a c =>
    "IfThen \x7b antecedent: " ++ toString a ++ ", consequent: " ++
      reprOptionRecord c ++ " \x7d"
  | .LoadTable s => "LoadTable(" ++ reprString s ++ ")"
  | .MatchingRoll t c =>
    "MatchingRoll \x7b matched_target: " ++ reprOptionWith reprToken t ++
      ", consequent: " ++ reprOptionRecord c ++ " \x7d"
  | .NontargetedRoll n => "NontargetedRoll(" ++ toString n ++ ")"
  | .ProcedureCall id recs =>
    "ProcedureCall \x7b identifier: " ++ reprString id ++ ", records: [" ++
      reprRecords recs ++ "] \x7d"
  | .ProcedureDefinition s => "ProcedureDefinition(" ++ reprString s ++ ")"
  | .Reminder s => "Reminder(" ++ reprString s ++ ")"
  | .SetFact s => "SetFact(" ++ reprString s ++ ")"
  | .SetPersistentFact s => "SetPersistentFact(" ++ reprString s ++ ")"
  | .TableRoll s => "TableRoll(" ++ reprString s ++ ")"

def reprRecords : List StatementRecord → String
  | [] => ""
  | [r] => reprRecord r
  | r :: rest => reprRecord r ++ ", " ++ reprRecords rest

def reprOptionRecord : Option StatementRecord → String
  | none => "None"
  | some r => "Some(" ++ reprRecord r ++ ")"
end

/-- The result of evaluating one statement: `none` is a panic, the
`Except` is the Rust `Result`, and the interpreter state is threaded. -/
abbrev EvalResult := Option (Except CrawlError StatementRecord × Interpreter)

/-- `Interpreter::evaluate_reminder`. -/
def evaluate_reminder (reminder : String) (σ : Interpreter) : EvalResult :=
  some (.ok (.Reminder reminder), σ)

/-- `Interpreter::evaluate_load_table` (`src/interpreter.rs` lines
177-188); `Table::load` is the external file collaborator, modelled by the
`files` oracle. -/
def evaluate_load_table (table_name : String) (σ : Interpreter) : EvalResult :=
  match hmGet table_name σ.files with
  | some table =>
    some (.ok (.LoadTable table_name),
          { σ with tables := hmInsert table_name table σ.tables })
  | none =>
    some (.error (.InterpreterError ("Failed to load table " ++ table_name)), σ)

/-- `Interpreter::evaluate_table_roll` (`src/interpreter.rs` lines
190-197): `self.tables.get(table_name).unwrap()` panics on an unknown
table. -/
def evaluate_table_roll (table_name : String) (σ : Interpreter) : EvalResult :=
  match hmGet table_name σ.tables with
  | none => none
  | some table =>
    match table.auto_roll σ.rolls with
    | (none, _) => none
    | (some (.error e), rolls') => some (.error e, { σ with rolls := rolls' })
    | (some (.ok res), rolls') =>
      some (.ok (.TableRoll res.entry.value), { σ with rolls := rolls' })

/-- `Interpreter::evaluate_check_persistent_fact`: the
`fact.try_into().unwrap()` panics on a malformed fact string. -/
def evaluate_check_persistent_fact (fact : String) (σ : Interpreter) :
    Option (Except CrawlError Bool × Interpreter) :=
  match Fact.try_from fact with
  | .error _ => none
  | .ok f => some (.ok (σ.persistent_facts.check f), σ)

/-- `Interpreter::evaluate_check_fact`. -/
def evaluate_check_fact (fact : String) (σ : Interpreter) :
    Option (Except CrawlError Bool × Interpreter) :=
  match Fact.try_from fact with
  | .error _ => none
  | .ok f => some (.ok (σ.local_facts.check f), σ)

/-- `Interpreter::evaluate_set_persistent_fact`. -/
def evaluate_set_persistent_fact (fact : String) (σ : Interpreter) :
    EvalResult :=
  match Fact.try_from fact with
  | .error _ => none
  | .ok f =>
    some (.ok (.SetPersistentFact fact),
          { σ with persistent_facts := σ.persistent_facts.set f })

/-- `Interpreter::evaluate_clear_persistent_fact`. -/
def evaluate_clear_persistent_fact (fact : String) (σ : Interpreter) :
    EvalResult :=
  match Fact.try_from fact with
  | .error _ => none
  | .ok f =>
    some (.ok (.ClearPersistentFact fact),
          { σ with persistent_facts := σ.persistent_facts.clear f })

/-- `Interpreter::evaluate_clear_fact`. -/
def evaluate_clear_fact (fact : String) (σ : Interpreter) : EvalResult :=
  match Fact.try_from fact with
  | .error _ => none
  | .ok f =>
    some (.ok (.ClearFact fact),
          { σ with local_facts := σ.local_facts.clear f })

/-- `Interpreter::roll_result_matches_target` (`src/interpreter.rs` lines
330-342). -/
def roll_result_matches_target (rr : DiceRollResult) (target : Token) :
    Except CrawlError Bool :=
  match target with
  | .Num n => .ok (decide (rr.total = n))
  | .NumRange mn mx => .ok (decide (mn ≤ rr.total ∧ rr.total ≤ mx))
  | _ => .error (.InterpreterError "invalid roll target")

/-- `Interpreter::evaluate_dice_roll` (`src/interpreter.rs` lines
290-298). -/
def evaluate_dice_roll (target : Token) (spec : ModifiedRollSpecifier)
    (σ : Interpreter) : Option (Except CrawlError Bool × Interpreter) :=
  match DiceRoll.try_from spec with
  | none => none
  | some (.error e) => some (.error e, σ)
  | some (.ok roll) =>
    let p := roll.rollWith σ.rolls
    let σ' := { σ with rolls := p.2 }
    match roll_result_matches_target p.1 target with
    | .error e => some (.error e, σ')
    | .ok b => some (.ok b, σ')

/-- `Interpreter::evaluate_nontargeted_roll` (`src/interpreter.rs` lines
300-307). -/
def evaluate_nontargeted_roll (spec : ModifiedRollSpecifier)
    (σ : Interpreter) : EvalResult :=
  match DiceRoll.try_from spec with
  | none => none
  | some (.error e) => some (.error e, σ)
  | some (.ok roll) =>
    let p := roll.rollWith σ.rolls
    some (.ok (.NontargetedRoll p.1.total), { σ with rolls := p.2 })

/-- `Interpreter::evaluate_antecedent` (`src/interpreter.rs` lines
119-130). -/
def evaluate_antecedent (antecedent : Antecedent) (σ : Interpreter) :
    Option (Except CrawlError Bool × Interpreter) :=
  match antecedent with
  | .CheckFact fact => evaluate_check_fact fact σ
  | .CheckPersistentFact fact => evaluate_check_persistent_fact fact σ
  | .DiceRoll target spec => evaluate_dice_roll target spec σ

/-- `Interpreter::evaluate_procedure_definition` (`src/interpreter.rs`
lines 221-230). -/
def evaluate_procedure_definition (declaration : String)
    (body : List Statement) (σ : Interpreter) : EvalResult :=
  let def_ : CrawlProcedure := ⟨declaration, body⟩
  some (.ok (.ProcedureDefinition declaration),
        { σ with procedures := hmInsert def_.identifier def_ σ.procedures })

/-- The index (within the chars after an opening brace) of the last `}`
before the first newline: the end of the greedy `\x7b.*\x7d` regex match
(Rust `.` does not match `\n`). -/
def braceCloseAux : List Char → Nat → Option Nat → Option Nat
  | [], _, best => best
  | c :: rest, i, best =>
    if c = '\n' then best
    else braceCloseAux rest (i + 1) (if c = '\x7d' then some i else best)

/-- `Regex::replace` with the pattern `\x7b.*\x7d`: replace the leftmost
(greedy) brace-to-brace span with `repl`. -/
def replaceOnce : List Char → List Char → List Char
  | [], _ => []
  | c :: rest, repl =>
    if c = '\x7b' then
      match braceCloseAux rest 0 none with
      | some j => repl ++ rest.drop (j + 1)
      | none => c :: replaceOnce rest repl
    else c :: replaceOnce rest repl

def replaceBraces (s repl : String) : String :=
  String.mk (replaceOnce s.toList repl.toList)

mutual
/-- `Interpreter::evaluate_statement` (`src/interpreter.rs` lines 87-117).
`fuel` bounds the call depth consumed by procedure calls and interpolated
expressions; `none` at `fuel = 0` models the unbounded-recursion abort. -/
def evaluate_statement (fuel : Nat) (stmt : Statement) (σ : Interpreter) :
    EvalResult :=
  match stmt with
  | .ClearFact fact => evaluate_clear_fact fact σ
  | .ClearPersistentFact fact => evaluate_clear_persistent_fact fact σ
  | .IfThen antecedent consequent => evaluate_if_then fuel antecedent consequent σ
  | .LoadTable table_name => evaluate_load_table table_name σ
  | .MatchingRoll roll_specifier arms =>
    evaluate_matching_roll fuel roll_specifier arms σ
  | .Procedure declaration body =>
    evaluate_procedure_definition declaration body σ
  | .ProcedureCall identifier => evaluate_procedure_call fuel identifier σ
  | .Reminder reminder => evaluate_reminder reminder σ
  | .SetFact fact => evaluate_set_fact fuel fact σ
  | .SetPersistentFact fact => evaluate_set_persistent_fact fact σ
  | .TableRoll table_name => evaluate_table_roll table_name σ
  | .NontargetedRoll specifier => evaluate_nontargeted_roll specifier σ
  termination_by (fuel, 9, 0)

/-- `Interpreter::evaluate_if_then` (`src/interpreter.rs` lines 154-171). -/
def evaluate_if_then (fuel : Nat) (antecedent : Antecedent)
    (consequent : Statement) (σ : Interpreter) : EvalResult :=
  match evaluate_antecedent antecedent σ with
  | none => none
  | some (.error e, σ') => some (.error e, σ')
  | some (.ok b, σ') =>
    if b then
      match evaluate_consequent fuel consequent σ' with
      | none => none
      | some (.error e, σ'') => some (.error e, σ'')
      | some (.ok r, σ'') => some (.ok (.IfThen b (some r)), σ'')
    else some (.ok (.IfThen b none), σ')
  termination_by (fuel, 8, 0)

/-- `Interpreter::evaluate_matching_roll` (`src/interpreter.rs` lines
199-219): roll once, then scan the arms. -/
def evaluate_matching_roll (fuel : Nat) (spec : ModifiedRollSpecifier)
    (arms : List MatchingRollArm) (σ : Interpreter) : EvalResult :=
  match DiceRoll.try_from spec with
  | none => none
  | some (.error e) => some (.error e, σ)
  | some (.ok roll) =>
    let p := roll.rollWith σ.rolls
    armsLoop fuel p.1 arms { σ with rolls := p.2 }
  termination_by (fuel, 8, 0)

/-- The `for arm in arms` loop of `evaluate_matching_roll`. -/
def armsLoop (fuel : Nat) (rr : DiceRollResult)
    (arms : List MatchingRollArm) (σ : Interpreter) : EvalResult :=
  match arms with
  | [] => some (.ok (.MatchingRoll none none), σ)
  | arm :: rest =>
    match roll_result_matches_target rr arm.target with
    | .error e => some (.error e, σ)
    | .ok true =>
      match evaluate_consequent fuel arm.consequent σ with
      | none => none
      | some (.error e, σ') => some (.error e, σ')
      | some (.ok r, σ') =>
        some (.ok (.MatchingRoll (some arm.target) (some r)), σ')
    | .ok false => armsLoop fuel rr rest σ
  termination_by (fuel, 7, arms.length)

/-- `Interpreter::evaluate_consequent` (`src/interpreter.rs` lines
132-152). -/
def evaluate_consequent (fuel : Nat) (consequent : Statement)
    (σ : Interpreter) : EvalResult :=
  match consequent with
  | .ClearFact fact => evaluate_clear_fact fact σ
  | .ClearPersistentFact fact => evaluate_clear_persistent_fact fact σ
  | .ProcedureCall identifier => evaluate_procedure_call fuel identifier σ
  | .SetFact fact => evaluate_set_fact fuel fact σ
  | .SetPersistentFact fact => evaluate_set_persistent_fact fact σ
  | .Reminder reminder => evaluate_reminder reminder σ
  | .TableRoll table_name => evaluate_table_roll table_name σ
  | _ => some (.error (.InterpreterError "Invalid statement as consequent"), σ)
  termination_by (fuel, 6, 0)

/-- `Interpreter::evaluate_set_fact` (`src/interpreter.rs` lines 278-283):
evaluate the `CrawlStr`, then `try_into().unwrap()` — a malformed
evaluated fact string panics. -/
def evaluate_set_fact (fuel : Nat) (fact : CrawlStr) (σ : Interpreter) :
    EvalResult :=
  match evaluate_str fuel fact σ with
  | none => none
  | some (.error e, σ') => some (.error e, σ')
  | some (.ok evaluated_fact, σ') =>
    match Fact.try_from evaluated_fact with
    | .error _ => none
    | .ok f =>
      some (.ok (.SetFact evaluated_fact),
            { σ' with local_facts := σ'.local_facts.set f })
  termination_by (fuel, 5, 0)

/-- `Interpreter::evaluate_str` (`src/interpreter.rs` lines 309-328). -/
def evaluate_str (fuel : Nat) (s : CrawlStr) (σ : Interpreter) :
    Option (Except CrawlError String × Interpreter) :=
  match s with
  | .Str raw_string => some (.ok raw_string, σ)
  | .InterpolatedStr format_string expressions =>
    exprsLoop fuel format_string format_string expressions σ
  termination_by (fuel, 4, 0)

/-- The `for expr in expressions` loop of `evaluate_str`.  Note that, as
in the source, each iteration replaces in `format_string` (the original
string), not in the `replaced` accumulator. -/
def exprsLoop (fuel : Nat) (format_string replaced : String)
    (expressions : List Statement) (σ : Interpreter) :
    Option (Except CrawlError String × Interpreter) :=
  match expressions with
  | [] => some (.ok replaced, σ)
  | expr :: rest =>
    match fuel with
    | 0 => none
    | f + 1 =>
      match evaluate_statement f expr σ with
      | none => none
      | some (.error e, σ') => some (.error e, σ')
      | some (.ok r, σ') =>
        exprsLoop (f + 1) format_string
          (replaceBraces format_string (reprRecord r)) rest σ'
  termination_by (fuel, 3, expressions.length)

/-- `Interpreter::evaluate_procedure_call` (`src/interpreter.rs` lines
232-251): snapshot `local_facts`, `self.procedures.get(..).unwrap()`
(panic on an unknown procedure), run the body against the same state,
then restore the snapshot. -/
def evaluate_procedure_call (fuel : Nat) (procedure_identifier : String)
    (σ : Interpreter) : EvalResult :=
  let outer_facts := σ.local_facts
  match hmGet procedure_identifier σ.procedures with
  | none => none
  | some proc =>
    match bodyLoop fuel proc.body σ with
    | none => none
    | some (.error e, σ') => some (.error e, σ')
    | some (.ok records, σ') =>
      some (.ok (.ProcedureCall procedure_identifier records),
            { σ' with local_facts := outer_facts })
  termination_by (fuel, 2, 0)

/-- The `for statement in proc.body` loop of `evaluate_procedure_call`;
the `?` inside `records.push(..?)` propagates the first error. -/
def bodyLoop (fuel : Nat) (body : List Statement) (σ : Interpreter) :
    Option (Except CrawlError (List StatementRecord) × Interpreter) :=
  match body with
  | [] => some (.ok [], σ)
  | stmt :: rest =>
    match fuel with
    | 0 => none
    | f + 1 =>
      match evaluate_statement f stmt σ with
      | none => none
      | some (.error e, σ') => some (.error e, σ')
      | some (.ok r, σ') =>
        match bodyLoop (f + 1) rest σ' with
        | none => none
        | some (.error e, σ'') => some (.error e, σ'')
        | some (.ok rs, σ'') => some (.ok (r :: rs), σ'')
  termination_by (fuel, 1, body.length)
end

/-- `Interpreter::interpret` (`src/interpreter.rs` lines 76-85): one
`Result` per top-level statement, evaluated in order. -/
def interpret (fuel : Nat) (statements : List Statement) (σ : Interpreter) :
    Option (List (Except CrawlError StatementRecord) × Interpreter) :=
  match statements with
  | [] => some ([], σ)
  | stmt :: rest =>
    match evaluate_statement fuel stmt σ with
    | none => none
    | some (r, σ') =>
      match interpret fuel rest σ' with
      | none => none
      | some (rs, σ'') => some (r :: rs, σ'')

/-! ## Theorems -/

/-- An interpreter with no procedures, tables, facts, pending draws or
files: the state of `Interpreter::new()`. -/
def emptyInterp : Interpreter := Interpreter.new [] []

/-- The "target contains the total" notion of the specification: `Num` by
exact equality, `NumRange` by inclusive bounds, anything else never. -/
def target_contains (total : Int) : Token → Bool
  | .Num n => decide (total = n)
  | .NumRange mn mx => decide (mn ≤ total ∧ total ≤ mx)
  | _ => false

theorem roll_result_matches_target_eq (rr : DiceRollResult) (t : Token)
    (h : (∃ n, t = .Num n) ∨ (∃ mn mx, t = .NumRange mn mx)) :
    roll_result_matches_target rr t = .ok (target_contains rr.total t) := by
  rcases h with ⟨n, rfl⟩ | ⟨mn, mx, rfl⟩ <;> rfl

theorem armsLoop_eq (fuel : Nat) (rr : DiceRollResult)
    (arms : List MatchingRollArm) (σ : Interpreter)
    (h : ∀ a ∈ arms, (∃ n, a.target = .Num n) ∨
      (∃ mn mx, a.target = .NumRange mn mx)) :
    armsLoop fuel rr arms σ =
      match arms.find? (fun a => target_contains rr.total a.target) with
      | some arm =>
        (match evaluate_consequent fuel arm.consequent σ with
         | none => none
         | some (.error e, σ') => some (.error e, σ')
         | some (.ok r, σ') =>
           some (.ok (.MatchingRoll (some arm.target) (some r)), σ'))
      | none => some (.ok (.MatchingRoll none none), σ) := by
  induction arms with
  | nil => rw [armsLoop]; rfl
  | cons arm rest ih =>
    rw [armsLoop, roll_result_matches_target_eq rr arm.target (h arm (by simp))]
    rw [List.find?]
    cases hc : target_contains rr.total arm.target with
    | true => rfl
    | false =>
      simp only [hc]
      exact ih (fun a ha => h a (by simp [ha]))

/-- C1: for a procedure call whose named procedure exists and whose body
evaluates without error, the interpreter snapshots `local_facts`, runs the
body against the same state `σ` (so the body's persistent-fact and
table/procedure mutations survive in the final state `σ'`), and after the
call the final `local_facts` equals the pre-call snapshot. -/
theorem C1_procedure_call_restores_local_facts
    (fuel : Nat) (name : String) (σ : Interpreter) (proc : CrawlProcedure)
    (records : List StatementRecord) (σ' : Interpreter)
    (hproc : hmGet name σ.procedures = some proc)
    (hbody : bodyLoop fuel proc.body σ = some (.ok records, σ')) :
    evaluate_procedure_call fuel name σ =
      some (.ok (.ProcedureCall name records),
            { σ' with local_facts := σ.local_facts }) ∧
    ({ σ' with local_facts := σ.local_facts } : Interpreter).local_facts
      = σ.local_facts := by
  refine ⟨?_, rfl⟩
  simp only [evaluate_procedure_call, hproc, hbody]

/-- The §8 scenario: procedure `p` sets local fact `x is y` and returns. -/
def procP : CrawlProcedure := ⟨"p", [.SetFact (.Str "x is y")]⟩

def σw : Interpreter := { emptyInterp with procedures := [("p", procP)] }

def σw1 : Interpreter :=
  { σw with local_facts := σw.local_facts.set ⟨"x", "is", "y"⟩ }

/-- Witness for C1: calling `p` leaves the interpreter exactly as before
the call, and `x is y` is not a local fact afterwards. -/
theorem C1_witness :
    evaluate_procedure_call 2 "p" σw =
      some (.ok (.ProcedureCall "p" [.SetFact "x is y"]), σw) ∧
    σw.local_facts.check ⟨"x", "is", "y"⟩ = false := by
  have hbody : bodyLoop 2 procP.body σw = some (.ok [.SetFact "x is y"], σw1) := by
    simp [bodyLoop, evaluate_statement, evaluate_set_fact, evaluate_str,
      Fact.try_from, split_once_space, σw1, σw, procP, emptyInterp,
      Interpreter.new]
  have h := C1_procedure_call_restores_local_facts 2 "p" σw procP
    [.SetFact "x is y"] σw1 rfl hbody
  exact ⟨h.1, rfl⟩

/-- C2: a `MatchingRoll` statement rolls the dice specifier exactly once
(one `rollWith` of the stream), then linearly scans the arms for the first
one whose target contains that single total, evaluating only that arm's
consequent (from the post-roll state); with no matching arm the record is
`MatchingRoll none none` and no consequent is evaluated.  The hypothesis
restricts the arm targets to the `Num`/`NumRange` forms of the claim. -/
theorem C2_matching_roll_single_roll_first_arm
    (fuel : Nat) (spec : ModifiedRollSpecifier)
    (arms : List MatchingRollArm) (σ : Interpreter) (roll : DiceRoll)
    (hroll : DiceRoll.try_from spec = some (.ok roll))
    (harms : ∀ a ∈ arms, (∃ n, a.target = .Num n) ∨
      (∃ mn mx, a.target = .NumRange mn mx)) :
    evaluate_matching_roll fuel spec arms σ =
      match arms.find?
        (fun a => target_contains (roll.rollWith σ.rolls).1.total a.target) with
      | some arm =>
        (match evaluate_consequent fuel arm.consequent
            { σ with rolls := (roll.rollWith σ.rolls).2 } with
         | none => none
         | some (.error e, σ') => some (.error e, σ')
         | some (.ok r, σ') =>
           some (.ok (.MatchingRoll (some arm.target) (some r)), σ'))
      | none => some (.ok (.MatchingRoll none none),
                      { σ with rolls := (roll.rollWith σ.rolls).2 }) := by
  simp only [evaluate_matching_roll, hroll]
  exact armsLoop_eq fuel _ arms _ harms

/-- The §8 matching-roll scenario: arms `2 -> "dead"`, `3-40 -> "alive"`,
with a forced roll total of 2. -/
def carms : List MatchingRollArm :=
  [⟨.Num 2, .Reminder "dead"⟩, ⟨.NumRange 3 40, .Reminder "alive"⟩]

def cσ : Interpreter := { emptyInterp with rolls := [2] }

/-- Witness for C2: with a forced total of 2 exactly the first arm's
consequent runs. -/
theorem C2_witness :
    evaluate_matching_roll 3 ⟨.RollSpecifier "1d1", 0⟩ carms cσ =
      some (.ok (.MatchingRoll (some (.Num 2)) (some (.Reminder "dead"))),
            { cσ with rolls := [] }) := by
  have h := C2_matching_roll_single_roll_first_arm 3
    ⟨.RollSpecifier "1d1", 0⟩ carms cσ
    ⟨⟨[⟨1⟩]⟩, 0⟩ rfl
    (by
      intro a ha
      simp only [carms, List.mem_cons, List.not_mem_nil, or_false] at ha
      rcases ha with rfl | rfl
      · exact Or.inl ⟨2, rfl⟩
      · exact Or.inr ⟨3, 40, rfl⟩)
  refine h.trans ?_
  simp [carms, cσ, target_contains, DiceRoll.rollWith, DicePool.rollWith,
    DicePool.rollDice, Die.rollWith, emptyInterp, Interpreter.new,
    MatchingRollArm.target, MatchingRollArm.consequent,
    evaluate_consequent, evaluate_reminder, List.find?]

/-- C3 (divergence witness): evaluating a `ProcedureCall` naming an
unknown procedure, or a `TableRoll` naming an unknown table, aborts via
`Option::unwrap` on the failed map lookup (modelled `none`) instead of
returning a typed `InterpreterError`. -/
theorem C3_unknown_lookup_panics :
    evaluate_statement 5 (.ProcedureCall "nope") emptyInterp = none ∧
    evaluate_statement 5 (.TableRoll "nope") emptyInterp = none := by
  constructor
  · simp [evaluate_statement, evaluate_procedure_call, hmGet, emptyInterp,
      Interpreter.new]
  · simp [evaluate_statement, evaluate_table_roll, hmGet, emptyInterp,
      Interpreter.new]

/-- C7 (divergence witness): a literal string evaluates to itself, but for
an interpolated string with two placeholders and two expressions the
evaluator replaces the greedy first-`\x7b`-to-last-`\x7d` span of the
*original* format string with the debug form of the *last* expression
only, yielding `a Reminder("y") c` rather than substituting each
expression into successive placeholders left to right. -/
theorem C7_interpolation_diverges :
    evaluate_str 3 (.Str "plain") emptyInterp
      = some (.ok "plain", emptyInterp) ∧
    evaluate_str 3
      (.InterpolatedStr "a \x7b\x7d b \x7b\x7d c"
        [.Reminder "x", .Reminder "y"]) emptyInterp
      = some (.ok "a Reminder(\"y\") c", emptyInterp) := by
  constructor
  · simp [evaluate_str]
  · simp [evaluate_str, exprsLoop, evaluate_statement, evaluate_reminder,
      replaceBraces]
    decide

/-- C9: a fact string is split at its first two *space* boundaries into
entity/attribute/value (the value keeping the rest), an unsplittable
string is rejected by `TryFrom` with a typed `InterpreterError` — but
evaluating a `SetFact` statement over such a string aborts via
`try_into().unwrap()` (modelled `none`) instead of surfacing that typed
error. -/
theorem C9_malformed_fact_panics :
    Fact.try_from "weather is partially cloudy"
      = .ok ⟨"weather", "is", "partially cloudy"⟩ ∧
    Fact.try_from "malformed"
      = .error (.InterpreterError "couldnt convert to Fact") ∧
    evaluate_statement 3 (.SetFact (.Str "malformed")) emptyInterp = none := by
  refine ⟨rfl, rfl, ?_⟩
  simp [evaluate_statement, evaluate_set_fact, evaluate_str, Fact.try_from,
    split_once_space]

/-! ## Lemmas about the association-list `HashMap` model -/

theorem find?_key_filter_ne {κ α : Type} [DecidableEq κ] (m : List (κ × α))
    (k x : κ) (h : x ≠ k) :
    (m.filter (fun p => p.1 ≠ k)).find? (fun p => decide (p.1 = x)) =
      m.find? (fun p => decide (p.1 = x)) := by
  induction m with
  | nil => rfl
  | cons p rest ih =>
    rw [List.filter_cons]
    by_cases hp : p.1 = k
    · rw [if_neg (by simp [hp])]
      rw [ih, List.find?_cons]
      have hpx : (decide (p.1 = x)) = false :=
        decide_eq_false (by rw [hp]; exact fun hkx => h hkx.symm)
      rw [hpx]
    · rw [if_pos (by simp [hp])]
      rw [List.find?_cons, List.find?_cons]
      cases hpx : decide (p.1 = x)
      · exact ih
      · rfl

theorem hmGet_hmInsert {κ α : Type} [DecidableEq κ] (k : κ) (v : α)
    (m : List (κ × α)) (x : κ) :
    hmGet x (hmInsert k v m) = if x = k then some v else hmGet x m := by
  by_cases hx : x = k
  · subst hx; simp [hmGet, hmInsert, List.find?_cons]
  · have hkx : (decide ((k, v).1 = x)) = false :=
      decide_eq_false (fun hkx => hx hkx.symm)
    simp only [hmGet, hmInsert, List.find?_cons, hkx, if_neg hx]
    rw [find?_key_filter_ne m k x hx]

theorem hmGet_isSome_of_mem_keys {κ α : Type} [DecidableEq κ]
    (m : List (κ × α)) (x : κ) (h : x ∈ m.map Prod.fst) :
    ∃ v, hmGet x m = some v := by
  induction m with
  | nil => simp at h
  | cons p rest ih =>
    by_cases hx : p.1 = x
    · exact ⟨p.2, by simp [hmGet, List.find?_cons, hx]⟩
    · have : x ∈ rest.map Prod.fst := by
        rcases List.mem_cons.mp h with h' | h'
        · exact absurd h'.symm hx
        · exact h'
      obtain ⟨v, hv⟩ := ih this
      refine ⟨v, ?_⟩
      have hpx : (decide (p.1 = x)) = false := decide_eq_false hx
      simpa [hmGet, List.find?_cons, hpx] using hv

/-! ## Lemmas about `Table` construction -/

theorem insertTargets_lookup (idx : Nat) (ns : List Int)
    (m : List (Int × Nat)) (x : Int) :
    hmGet x (insertTargets idx ns m) =
      if x ∈ ns then some idx else hmGet x m := by
  induction ns generalizing m with
  | nil => simp [insertTargets]
  | cons n rest ih =>
    have step : insertTargets idx (n :: rest) m =
        insertTargets idx rest (hmInsert n idx m) := rfl
    rw [step, ih]
    by_cases hr : x ∈ rest
    · simp [hr]
    · by_cases hn : x = n
      · simp [hn, hmGet_hmInsert]
      · simp [hr, hn, hmGet_hmInsert]

/-- The index of the last entry of `l` whose target covers `x`. -/
def lastIdx (l : List TableEntry) (x : Int) : Option Nat :=
  match l with
  | [] => none
  | e :: rest =>
    match lastIdx rest x with
    | some j => some (j + 1)
    | none => if x ∈ e.roll_target.covered_ints then some 0 else none

theorem lastIdx_none_iff (l : List TableEntry) (x : Int) :
    lastIdx l x = none ↔ ∀ e ∈ l, x ∉ e.roll_target.covered_ints := by
  induction l with
  | nil => simp [lastIdx]
  | cons e rest ih =>
    rw [lastIdx]
    cases hrest : lastIdx rest x with
    | some j =>
      simp only [hrest]
      constructor
      · intro h; cases h
      · intro h
        have : lastIdx rest x = none :=
          ih.mpr (fun e' he' => h e' (List.mem_cons_of_mem _ he'))
        rw [hrest] at this
        cases this
    | none =>
      simp only [hrest]
      by_cases hx : x ∈ e.roll_target.covered_ints
      · simp only [if_pos hx]
        constructor
        · intro h; cases h
        · intro h; exact absurd hx (h e (List.mem_cons_self e rest))
      · simp only [if_neg hx]
        constructor
        · intro _ e' he'
          rcases List.mem_cons.mp he' with rfl | he'
          · exact hx
          · exact ih.mp hrest e' he'
        · intro _; trivial

theorem lastIdx_some_iff (l : List TableEntry) (x : Int) (i : Nat) :
    lastIdx l x = some i ↔
      (∃ e, l[i]? = some e ∧ x ∈ e.roll_target.covered_ints) ∧
      (∀ (j : Nat) (e' : TableEntry), i < j → l[j]? = some e' →
        x ∉ e'.roll_target.covered_ints) := by
  induction l generalizing i with
  | nil => simp [lastIdx]
  | cons e rest ih =>
    rw [lastIdx]
    cases hrest : lastIdx rest x with
    | some j =>
      obtain ⟨⟨ej, hej, hxej⟩, hlater⟩ := (ih j).mp hrest
      constructor
      · intro h
        injection h with h
        subst h
        refine ⟨⟨ej, by simpa using hej, hxej⟩, ?_⟩
        intro k e' hk hke
        cases k with
        | zero => omega
        | succ k =>
          rw [List.getElem?_cons_succ] at hke
          exact hlater k e' (by omega) hke
      · rintro ⟨⟨e', he', hxe'⟩, hlater'⟩
        cases i with
        | zero =>
          rw [List.getElem?_cons_zero] at he'
          injection he' with he'
          subst he'
          exact absurd hxej
            (hlater' (j + 1) ej (by omega) (by simpa using hej))
        | succ i =>
          rw [List.getElem?_cons_succ] at he'
          have : lastIdx rest x = some i :=
            (ih i).mpr ⟨⟨e', he', hxe'⟩, fun k e'' hk hke =>
              hlater' (k + 1) e'' (by omega)
                (by rw [List.getElem?_cons_succ]; exact hke)⟩
          rw [hrest] at this
          injection this with this
          rw [this]
    | none =>
      have hnone : ∀ e' ∈ rest, x ∉ e'.roll_target.covered_ints :=
        (lastIdx_none_iff rest x).mp hrest
      have hnone' : ∀ (j : Nat) (e' : TableEntry), rest[j]? = some e' →
          x ∉ e'.roll_target.covered_ints :=
        fun j e' hj => hnone e' (List.getElem?_mem hj)
      by_cases hx : x ∈ e.roll_target.covered_ints
      · simp only [if_pos hx]
        constructor
        · intro h
          injection h with h
          subst h
          refine ⟨⟨e, by simp, hx⟩, ?_⟩
          intro k e' hk hke
          cases k with
          | zero => omega
          | succ k =>
            rw [List.getElem?_cons_succ] at hke
            exact hnone' k e' hke
        · rintro ⟨⟨e', he', hxe'⟩, _⟩
          cases i with
          | zero => rfl
          | succ i =>
            rw [List.getElem?_cons_succ] at he'
            exact absurd hxe' (hnone' i e' he')
      · simp only [if_neg hx]
        constructor
        · intro h; cases h
        · rintro ⟨⟨e', he', hxe'⟩, _⟩
          cases i with
          | zero =>
            rw [List.getElem?_cons_zero] at he'
            injection he' with he'
            subst he'
            exact absurd hxe' hx
          | succ i =>
            rw [List.getElem?_cons_succ] at he'
            exact absurd hxe' (hnone' i e' he')

theorem buildRollTargets_lookup (l : List TableEntry) (idx : Nat)
    (m : List (Int × Nat)) (x : Int) :
    hmGet x (buildRollTargets l idx m) =
      match lastIdx l x with
      | some j => some (idx + j)
      | none => hmGet x m := by
  induction l generalizing idx m with
  | nil => simp [buildRollTargets, lastIdx]
  | cons e rest ih =>
    rw [buildRollTargets, ih, lastIdx]
    rcases hrest : lastIdx rest x with _ | j
    · by_cases hx : x ∈ e.roll_target.covered_ints
      · simp [hx, insertTargets_lookup]
      · simp [hx, insertTargets_lookup]
    · have : idx + 1 + j = idx + (j + 1) := by omega
      simp [insertTargets_lookup, this]

/-! ## Min/max over the target keys -/

theorem int_min?_eq_some_iff {xs : List Int} {a : Int} :
    xs.min? = some a ↔ a ∈ xs ∧ ∀ b ∈ xs, a ≤ b := by
  haveI : Std.Antisymm (fun x1 x2 : Int => x1 ≤ x2) :=
    ⟨fun h1 h2 => le_antisymm h1 h2⟩
  exact List.min?_eq_some_iff (fun x => le_refl x)
    (fun x y => min_choice x y) (fun _ _ _ => le_min_iff)

theorem int_max?_eq_some_iff {xs : List Int} {a : Int} :
    xs.max? = some a ↔ a ∈ xs ∧ ∀ b ∈ xs, b ≤ a := by
  haveI : Std.Antisymm (fun x1 x2 : Int => x1 ≤ x2) :=
    ⟨fun h1 h2 => le_antisymm h1 h2⟩
  exact List.max?_eq_some_iff (fun x => le_refl x)
    (fun x y => max_choice x y) (fun _ _ _ => max_le_iff)

theorem Table.new_spec (entries : List TableEntry) (rt : List (Int × Nat))
    (t : Table) (h : Table.new entries rt = some t) :
    t.entries = entries ∧ t.roll_targets = rt ∧
    t.clamp_to_min = true ∧ t.clamp_to_max = true ∧
    (rt.map Prod.fst).min? = some t.min_target ∧
    (rt.map Prod.fst).max? = some t.max_target := by
  unfold Table.new at h
  cases hmn : (rt.map Prod.fst).min? with
  | none => rw [hmn] at h; cases h
  | some mn =>
    cases hmx : (rt.map Prod.fst).max? with
    | none => rw [hmn, hmx] at h; cases h
    | some mx =>
      rw [hmn, hmx] at h
      cases h
      exact ⟨rfl, rfl, rfl, rfl, rfl, rfl⟩

theorem covered_ints_iff (rt : RollTarget) (x : Int) :
    x ∈ rt.covered_ints ↔
      (rt = .Num x ∨ rt = .OverOrEqual x ∨
       ∃ lo hi, rt = .NumRange lo hi ∧ lo ≤ x ∧ x ≤ hi) := by
  cases rt with
  | Num n => simp [RollTarget.covered_ints, eq_comm]
  | OverOrEqual n => simp [RollTarget.covered_ints, eq_comm]
  | NumRange lo hi =>
    constructor
    · intro hmem
      simp only [RollTarget.covered_ints, List.mem_map, List.mem_range] at hmem
      obtain ⟨i, hilt, hx⟩ := hmem
      exact Or.inr (Or.inr ⟨lo, hi, rfl, by omega, by omega⟩)
    · rintro (h | h | ⟨lo', hi', heq, h1, h2⟩)
      · cases h
      · cases h
      · injection heq with h3 h4
        subst h3; subst h4
        simp only [RollTarget.covered_ints, List.mem_map, List.mem_range]
        exact ⟨(x - lo).toNat, by omega, by omega⟩

/-- C5: `Table::roll` computes a total and looks it up: a total that is a
key of `roll_targets` returns that key's entry; a missing total below
`min_target` with `clamp_to_min` set (resp. above `max_target` with
`clamp_to_max` set) substitutes the entry at that boundary; otherwise the
roll fails with an `InterpreterError`. -/
theorem C5_table_roll_lookup_and_clamp (t : Table) (rr : DiceRollResult) :
    (∀ (dice : DiceRoll) (rolls : List Int),
      t.roll dice rolls =
        (t.roll_for (dice.rollWith rolls).1, (dice.rollWith rolls).2)) ∧
    (∀ (i : Nat) (e : TableEntry), hmGet rr.total t.roll_targets = some i →
      t.entries.get? i = some e → t.roll_for rr = some (.ok ⟨e⟩)) ∧
    (hmGet rr.total t.roll_targets = none → rr.total < t.min_target →
      t.clamp_to_min = true →
      t.roll_for rr = t.get_value_for_target t.min_target) ∧
    (hmGet rr.total t.roll_targets = none →
      ¬(rr.total < t.min_target ∧ t.clamp_to_min = true) →
      rr.total > t.max_target → t.clamp_to_max = true →
      t.roll_for rr = t.get_value_for_target t.max_target) ∧
    (∀ (x : Int) (j : Nat) (e : TableEntry),
      hmGet x t.roll_targets = some j → t.entries.get? j = some e →
      t.get_value_for_target x = some (.ok ⟨e⟩)) ∧
    (hmGet rr.total t.roll_targets = none →
      ¬(rr.total < t.min_target ∧ t.clamp_to_min = true) →
      ¬(rr.total > t.max_target ∧ t.clamp_to_max = true) →
      t.roll_for rr = some (.error (.InterpreterError
        ("roll " ++ reprDiceRollResult rr ++
         " not a valid index for table")))) := by
  refine ⟨fun dice rolls => rfl, ?_, ?_, ?_, ?_, ?_⟩
  · intro i e hlook hget
    simp only [Table.roll_for, hlook, hget, Option.map_some']
  · intro hlook hlt hclamp
    simp only [Table.roll_for, hlook]
    rw [if_pos ⟨hlt, hclamp⟩]
  · intro hlook hnot hgt hclamp
    simp only [Table.roll_for, hlook]
    rw [if_neg hnot, if_pos ⟨hgt, hclamp⟩]
  · intro x j e hlook hget
    simp only [Table.get_value_for_target, hlook, hget, Option.map_some']
  · intro hlook hnot1 hnot2
    simp only [Table.roll_for, hlook]
    rw [if_neg hnot1, if_neg hnot2]

/-- The concrete table of the C5 scenario: `[1,6] -> "A"`, `[7,12] -> "B"`,
built by `Table::from`. -/
def tAB : Table :=
  { entries := [⟨.NumRange 1 6, "A"⟩, ⟨.NumRange 7 12, "B"⟩],
    roll_targets := [(12, 1), (11, 1), (10, 1), (9, 1), (8, 1), (7, 1),
                     (6, 0), (5, 0), (4, 0), (3, 0), (2, 0), (1, 0)],
    min_target := 1, max_target := 12,
    clamp_to_min := true, clamp_to_max := true }

def rrAt (total : Int) : DiceRollResult := ⟨⟨[total]⟩, 0, total⟩

/-- Witness for C5 on the clamp-enabled A/B table: total `-5` resolves to
`"A"`, `20` to `"B"`, `4` to `"A"` and `9` to `"B"`. -/
theorem C5_witness :
    Table.from_entries [⟨.NumRange 1 6, "A"⟩, ⟨.NumRange 7 12, "B"⟩]
      = some tAB ∧
    tAB.roll_for (rrAt (-5)) = some (.ok ⟨⟨.NumRange 1 6, "A"⟩⟩) ∧
    tAB.roll_for (rrAt 20) = some (.ok ⟨⟨.NumRange 7 12, "B"⟩⟩) ∧
    tAB.roll_for (rrAt 4) = some (.ok ⟨⟨.NumRange 1 6, "A"⟩⟩) ∧
    tAB.roll_for (rrAt 9) = some (.ok ⟨⟨.NumRange 7 12, "B"⟩⟩) := by
  refine ⟨by decide, ?_, ?_, ?_, ?_⟩
  · exact ((C5_table_roll_lookup_and_clamp tAB (rrAt (-5))).2.2.1
      (by decide) (by decide) rfl).trans
      ((C5_table_roll_lookup_and_clamp tAB (rrAt (-5))).2.2.2.2.1
        tAB.min_target 0 ⟨.NumRange 1 6, "A"⟩ (by decide) (by decide))
  · exact ((C5_table_roll_lookup_and_clamp tAB (rrAt 20)).2.2.2.1
      (by decide) (by decide) (by decide) rfl).trans
      ((C5_table_roll_lookup_and_clamp tAB (rrAt 20)).2.2.2.2.1
        tAB.max_target 1 ⟨.NumRange 7 12, "B"⟩ (by decide) (by decide))
  · exact (C5_table_roll_lookup_and_clamp tAB (rrAt 4)).2.1 0
      ⟨.NumRange 1 6, "A"⟩ (by decide) (by decide)
  · exact (C5_table_roll_lookup_and_clamp tAB (rrAt 9)).2.1 1
      ⟨.NumRange 7 12, "B"⟩ (by decide) (by decide)

/-- C6: building a `Table` from a non-empty entry list (when the build
does not panic on an empty key map) yields: the entries as given; a
`roll_targets` map where a key `x` maps to index `i` exactly when entry
`i` covers `x` (one integer for `Num`/`OverOrEqual`, the closed interval
for `NumRange`) and no later entry covers `x` (later entries win
overlaps); and `min_target`/`max_target` are the global min/max over all
keys. -/
theorem C6_table_from_entries_invariant (l : List TableEntry) (t : Table)
    (_hne : l ≠ []) (h : Table.from_entries l = some t) :
    t.entries = l ∧
    (∀ (rt : RollTarget) (x : Int), x ∈ rt.covered_ints ↔
      (rt = .Num x ∨ rt = .OverOrEqual x ∨
       ∃ lo hi, rt = .NumRange lo hi ∧ lo ≤ x ∧ x ≤ hi)) ∧
    (∀ (x : Int) (i : Nat), hmGet x t.roll_targets = some i ↔
      ((∃ e, l[i]? = some e ∧ x ∈ e.roll_target.covered_ints) ∧
       ∀ (j : Nat) (e' : TableEntry), i < j → l[j]? = some e' →
         x ∉ e'.roll_target.covered_ints)) ∧
    (t.min_target ∈ t.roll_targets.map Prod.fst ∧
      ∀ k ∈ t.roll_targets.map Prod.fst, t.min_target ≤ k) ∧
    (t.max_target ∈ t.roll_targets.map Prod.fst ∧
      ∀ k ∈ t.roll_targets.map Prod.fst, k ≤ t.max_target) := by
  obtain ⟨hent, hrt, _, _, hmn, hmx⟩ := Table.new_spec l _ t h
  refine ⟨hent, covered_ints_iff, ?_, ?_, ?_⟩
  · intro x i
    rw [hrt, buildRollTargets_lookup]
    cases hl : lastIdx l x with
    | some j =>
      constructor
      · intro h'
        injection h' with h'
        have : i = j := by omega
        subst this
        exact (lastIdx_some_iff l x i).mp hl
      · intro h'
        have : lastIdx l x = some i := (lastIdx_some_iff l x i).mpr h'
        rw [hl] at this
        injection this with this
        simp [this]
    | none =>
      constructor
      · intro h'
        cases h'
      · intro h'
        have : lastIdx l x = some i := (lastIdx_some_iff l x i).mpr h'
        rw [hl] at this
        cases this
  · rw [hrt]
    exact int_min?_eq_some_iff.mp hmn
  · rw [hrt]
    exact int_max?_eq_some_iff.mp hmx

/-- The C6 witness list: two entries both covering `1`; the later one
wins. -/
def clw : List TableEntry := [⟨.Num 1, "A"⟩, ⟨.Num 1, "B"⟩]

def ctw : Table :=
  { entries := clw, roll_targets := [(1, 1)],
    min_target := 1, max_target := 1,
    clamp_to_min := true, clamp_to_max := true }

/-- Witness for C6: on overlapping targets the later entry's index wins,
and `min_target`/`max_target` are the key extremes. -/
theorem C6_witness :
    Table.from_entries clw = some ctw ∧
    hmGet 1 ctw.roll_targets = some 1 ∧
    ctw.min_target = 1 ∧ ctw.max_target = 1 := by
  refine ⟨by decide, ?_, rfl, rfl⟩
  have h := C6_table_from_entries_invariant clw ctw (by decide) (by decide)
  refine (h.2.2.1 1 1).mpr ⟨⟨⟨.Num 1, "B"⟩, by decide, by decide⟩, ?_⟩
  intro j e' hj hje
  obtain ⟨k, rfl⟩ : ∃ k, j = k + 2 := ⟨j - 2, by omega⟩
  simp [clw] at hje

/-- C10 (implicit): every `Table` built through `Table::new` has both
clamp flags set, so an out-of-range total never reaches the error branch:
`roll` can only error on a total strictly between `min_target` and
`max_target` that is not a key of `roll_targets`. -/
theorem C10_clamps_always_set (entries : List TableEntry)
    (rt : List (Int × Nat)) (t : Table) (h : Table.new entries rt = some t) :
    t.clamp_to_min = true ∧ t.clamp_to_max = true ∧
    ∀ (rr : DiceRollResult) (e : CrawlError),
      t.roll_for rr = some (.error e) →
      hmGet rr.total t.roll_targets = none ∧
      t.min_target < rr.total ∧ rr.total < t.max_target := by
  obtain ⟨hent, hrt, hcmin, hcmax, hmn, hmx⟩ := Table.new_spec entries rt t h
  refine ⟨hcmin, hcmax, ?_⟩
  intro rr e herr
  have hmnk := int_min?_eq_some_iff.mp hmn
  have hmxk := int_max?_eq_some_iff.mp hmx
  have hminkey : ∃ v, hmGet t.min_target t.roll_targets = some v := by
    apply hmGet_isSome_of_mem_keys
    rw [hrt]
    exact hmnk.1
  have hmaxkey : ∃ v, hmGet t.max_target t.roll_targets = some v := by
    apply hmGet_isSome_of_mem_keys
    rw [hrt]
    exact hmxk.1
  rw [Table.roll_for] at herr
  cases hlook : hmGet rr.total t.roll_targets with
  | some idx =>
    simp only [hlook] at herr
    cases hg : t.entries.get? idx <;> simp [hg] at herr
  | none =>
    simp only [hlook] at herr
    by_cases h1 : rr.total < t.min_target ∧ t.clamp_to_min = true
    · rw [if_pos h1] at herr
      obtain ⟨v, hv⟩ := hminkey
      simp only [Table.get_value_for_target, hv] at herr
      cases hg : t.entries.get? v <;> simp [hg] at herr
    · rw [if_neg h1] at herr
      by_cases h2 : rr.total > t.max_target ∧ t.clamp_to_max = true
      · rw [if_pos h2] at herr
        obtain ⟨v, hv⟩ := hmaxkey
        simp only [Table.get_value_for_target, hv] at herr
        cases hg : t.entries.get? v <;> simp [hg] at herr
      · have hne_min : rr.total ≠ t.min_target := by
          intro heq
          obtain ⟨v, hv⟩ := hminkey
          rw [heq, hv] at hlook
          cases hlook
        have hne_max : rr.total ≠ t.max_target := by
          intro heq
          obtain ⟨v, hv⟩ := hmaxkey
          rw [heq, hv] at hlook
          cases hlook
        have hge : ¬(rr.total < t.min_target) := fun hlt => h1 ⟨hlt, hcmin⟩
        have hle : ¬(rr.total > t.max_target) := fun hgt => h2 ⟨hgt, hcmax⟩
        exact ⟨rfl, by omega, by omega⟩

/-- Witness for C10: for the A/B table, the error branch is reachable only
with an uncovered in-range total; the clamp flags are set. -/
theorem C10_witness :
    tAB.clamp_to_min = true ∧ tAB.clamp_to_max = true := by
  have h := C10_clamps_always_set
    [⟨.NumRange 1 6, "A"⟩, ⟨.NumRange 7 12, "B"⟩]
    tAB.roll_targets tAB (by decide)
  exact ⟨h.1, h.2.1⟩

/-! ## Parser (`src/parser.rs`) -/

/-- The `Parser` state (`src/parser.rs` lines 70-74). -/
structure Parser where
  tokens : List Token
  position : Nat

/-- `Parser::peek` (`src/parser.rs` lines 490-495). -/
def Parser.peek (p : Parser) : Token :=
  p.tokens.getD p.position .Eof

/-- `Parser::peek_next`. -/
def Parser.peek_next (p : Parser) : Token :=
  p.tokens.getD (p.position + 1) .Eof

def Parser.advance (p : Parser) : Parser :=
  { p with position := p.position + 1 }

def Parser.is_at_end (p : Parser) : Bool :=
  decide (p.peek = .Eof)

/-- `Parser::consume`. -/
def Parser.consume (p : Parser) (token : Token) : Except CrawlError Token × Parser :=
  if p.peek = token then (.ok token, p.advance)
  else (.error (.ParserError (reprToken p.peek)), p)

theorem Parser.pos_lt_of_peek_ne_eof (p : Parser) (h : p.peek ≠ .Eof) :
    p.position < p.tokens.length := by
  by_contra hge
  push_neg at hge
  apply h
  rw [Parser.peek, List.getD_eq_getElem?_getD, List.getElem?_eq_none hge]
  rfl

/-- The `while *self.peek() == Token::Newline` loop at the end of
`Parser::statement`. -/
def skipNewlines (p : Parser) : Parser :=
  if _h : p.peek = Token.Newline then skipNewlines p.advance else p
  termination_by p.tokens.length - p.position
  decreasing_by
    have := p.pos_lt_of_peek_ne_eof (by rw [_h]; intro hc; cases hc)
    simp only [Parser.advance]
    omega

/-- The `while *self.peek() == Token::Indent` loop inside
`Parser::matching_roll`. -/
def skipIndents (p : Parser) : Parser :=
  if _h : p.peek = Token.Indent then skipIndents p.advance else p
  termination_by p.tokens.length - p.position
  decreasing_by
    have := p.pos_lt_of_peek_ne_eof (by rw [_h]; intro hc; cases hc)
    simp only [Parser.advance]
    omega

/-- The result of one parser production: `none` is an `expect` panic, the
`Except` is the ordinary `Result`. -/
abbrev PRes (α : Type) := Option (Except CrawlError α × Parser)

/-- `Parser::procedure_call` (`src/parser.rs` lines 157-166). -/
def procedure_callP (p : Parser) : PRes Statement :=
  match p.peek with
  | .Identifier name => some (.ok (.ProcedureCall name), p.advance)
  | t => some (.error (.ParserError (reprToken t)), p)

/-- `Parser::reminder` (`src/parser.rs` lines 258-272). -/
def reminderP (p : Parser) : PRes Statement :=
  match p.consume .Reminder with
  | (.error _, _) => none
  | (.ok _, p1) =>
    match p1.peek with
    | .Str s => some (.ok (.Reminder s), p1.advance)
    | t => some (.error (.ParserError (reprToken t)), p1)

/-- `Parser::load_table` (`src/parser.rs` lines 274-289): note the
unconditional `advance` before returning the result. -/
def load_tableP (p : Parser) : PRes Statement :=
  match p.consume .Load with
  | (.error _, _) => none
  | (.ok _, p1) =>
    match p1.consume .Table with
    | (.error _, _) => none
    | (.ok _, p2) =>
      match p2.peek with
      | .Str name => some (.ok (.LoadTable name), p2.advance)
      | t => some (.error (.ParserError (reprToken t)), p2.advance)

/-- `Parser::set_persistent_fact` (`src/parser.rs` lines 376-390). -/
def set_persistent_factP (p : Parser) : PRes Statement :=
  match p.consume .SetPersistentFact with
  | (.error _, _) => none
  | (.ok _, p1) =>
    match p1.peek with
    | .Str s => some (.ok (.SetPersistentFact s), p1.advance)
    | t => some (.error (.ParserError (reprToken t)), p1)

/-- `Parser::clear_fact` (`src/parser.rs` lines 392-405). -/
def clear_factP (p : Parser) : PRes Statement :=
  match p.consume .ClearFact with
  | (.error _, _) => none
  | (.ok _, p1) =>
    match p1.peek with
    | .Str s => some (.ok (.ClearFact s), p1.advance)
    | t => some (.error (.ParserError (reprToken t)), p1)

/-- `Parser::clear_persistent_fact` (`src/parser.rs` lines 407-421). -/
def clear_persistent_factP (p : Parser) : PRes Statement :=
  match p.consume .ClearPersistentFact with
  | (.error _, _) => none
  | (.ok _, p1) =>
    match p1.peek with
    | .Str s => some (.ok (.ClearPersistentFact s), p1.advance)
    | t => some (.error (.ParserError (reprToken t)), p1)

/-- `Parser::table_roll` (`src/parser.rs` lines 423-438). -/
def table_rollP (p : Parser) : PRes Statement :=
  match p.consume .Roll with
  | (.error _, _) => none
  | (.ok _, p1) =>
    match p1.consume .On with
    | (.error _, _) => none
    | (.ok _, p2) =>
      match p2.consume .Table with
      | (.error _, _) => none
      | (.ok _, p3) =>
        match p3.peek with
        | .Str name => some (.ok (.TableRoll name), p3.advance)
        | t => some (.error (.ParserError (reprToken t)), p3)

/-- `Parser::modified_specifier` (`src/parser.rs` lines 223-256).  In the
`Plus`/`Minus` branches the parser advances past the modifier position
even when it does not hold a `Num`. -/
def modified_specifierP (p : Parser) :
    Except CrawlError ModifiedRollSpecifier × Parser :=
  match p.peek with
  | .RollSpecifier s =>
    let p1 := p.advance
    match p1.peek with
    | .Plus =>
      let p2 := p1.advance
      let m : Int := match p2.peek with | .Num n => n | _ => 0
      (.ok ⟨.RollSpecifier s, m⟩, p2.advance)
    | .Minus =>
      let p2 := p1.advance
      let m : Int := match p2.peek with | .Num n => -n | _ => 0
      (.ok ⟨.RollSpecifier s, m⟩, p2.advance)
    | _ => (.ok ⟨.RollSpecifier s, 0⟩, p1)
  | t => (.error (.ParserError (reprToken t)), p)

/-- `Parser::nontargeted_roll` (`src/parser.rs` lines 440-444). -/
def nontargeted_rollP (p : Parser) : PRes Statement :=
  match p.consume .Roll with
  | (.error _, _) => none
  | (.ok _, p1) =>
    match modified_specifierP p1 with
    | (.error e, p2) => some (.error e, p2)
    | (.ok spec, p2) => some (.ok (.NontargetedRoll spec), p2)

/-- `Parser::str` (`src/parser.rs` lines 446-473). -/
def strP (p : Parser) : PRes CrawlStr :=
  match p.peek with
  | .Str s =>
    let p1 := p.advance
    match p1.peek with
    | .Percent =>
      let p2 := p1.advance
      match p2.peek_next with
      | .On =>
        (match table_rollP p2 with
         | none => none
         | some (.error e, p3) => some (.error e, p3)
         | some (.ok expr, p3) =>
           some (.ok (.InterpolatedStr s [expr]), p3))
      | .RollSpecifier _ =>
        (match nontargeted_rollP p2 with
         | none => none
         | some (.error e, p3) => some (.error e, p3)
         | some (.ok expr, p3) =>
           some (.ok (.InterpolatedStr s [expr]), p3))
      | _ => some (.error (.ParserError (reprToken p2.peek)), p2)
    | _ => some (.ok (.Str s), p1)
  | t => some (.error (.ParserError (reprToken t)), p)

/-- `Parser::set_fact` (`src/parser.rs` lines 369-374). -/
def set_factP (p : Parser) : PRes Statement :=
  match p.consume .SetFact with
  | (.error _, _) => none
  | (.ok _, p1) =>
    match strP p1 with
    | none => none
    | some (.error e, p2) => some (.error e, p2)
    | some (.ok fact, p2) => some (.ok (.SetFact fact), p2)

/-- `Parser::dice_roll` (`src/parser.rs` lines 317-336). -/
def dice_rollP (p : Parser) : PRes Antecedent :=
  match p.consume .Roll with
  | (.error _, _) => none
  | (.ok _, p1) =>
    match (match p1.peek with
           | .Num n => Except.ok (Token.Num n)
           | .NumRange a b => Except.ok (Token.NumRange a b)
           | t => Except.error (CrawlError.ParserError (reprToken t))) with
    | .error e => some (.error e, p1)
    | .ok target =>
      let p2 := p1.advance
      match p2.consume .On with
      | (.error _, _) => none
      | (.ok _, p3) =>
        match modified_specifierP p3 with
        | (.error e, p4) => some (.error e, p4)
        | (.ok spec, p4) => some (.ok (.DiceRoll target spec), p4)

/-- `Parser::fact_check` (`src/parser.rs` lines 338-351): the `advance`
happens before the `?` on the fact, so it runs in the error case too. -/
def fact_checkP (p : Parser) : PRes Antecedent :=
  match p.consume .FactTest with
  | (.error _, _) => none
  | (.ok _, p1) =>
    match p1.peek with
    | .Str s => some (.ok (.CheckFact s), p1.advance)
    | t => some (.error (.ParserError (reprToken t)), p1.advance)

/-- `Parser::persistent_fact_check` (`src/parser.rs` lines 353-367). -/
def persistent_fact_checkP (p : Parser) : PRes Antecedent :=
  match p.consume .PersistentFactTest with
  | (.error _, _) => none
  | (.ok _, p1) =>
    match p1.peek with
    | .Str s => some (.ok (.CheckPersistentFact s), p1.advance)
    | t => some (.error (.ParserError (reprToken t)), p1.advance)

/-- `Parser::antecedent` (`src/parser.rs` lines 291-300). -/
def antecedentP (p : Parser) : PRes Antecedent :=
  match p.peek with
  | .Roll => dice_rollP p
  | .FactTest => fact_checkP p
  | .PersistentFactTest => persistent_fact_checkP p
  | t => some (.error (.ParserError (reprToken t)), p)

/-- `Parser::consequent` (`src/parser.rs` lines 302-315). -/
def consequentP (p : Parser) : PRes Statement :=
  match p.peek with
  | .ClearFact => clear_factP p
  | .ClearPersistentFact => clear_persistent_factP p
  | .Identifier _ => procedure_callP p
  | .Reminder => reminderP p
  | .Roll => table_rollP p
  | .SetFact => set_factP p
  | .SetPersistentFact => set_persistent_factP p
  | t => some (.error (.ParserError (reprToken t)), p)

/-- `Parser::if_then` (`src/parser.rs` lines 168-179). -/
def if_thenP (p : Parser) : PRes Statement :=
  match p.consume .If with
  | (.error _, _) => none
  | (.ok _, p1) =>
    match antecedentP p1 with
    | none => none
    | some (.error e, p2) => some (.error e, p2)
    | some (.ok antecedent, p2) =>
      match p2.consume .Arrow with
      | (.error _, _) => none
      | (.ok _, p3) =>
        match consequentP p3 with
        | none => none
        | some (.error e, p4) => some (.error e, p4)
        | some (.ok consequent, p4) =>
          some (.ok (.IfThen antecedent consequent), p4)

/-- The `while *self.peek() != Token::End` arm loop of
`Parser::matching_roll`. -/
def armsLoopP (fuel : Nat) (p : Parser) :
    Option (Except CrawlError (List MatchingRollArm) × Parser) :=
  match fuel with
  | 0 => none
  | fuel + 1 =>
    if p.peek = Token.End then some (.ok [], p)
    else
      match p.consume .Indent with
      | (.error _, _) => none
      | (.ok _, p1) =>
        let p2 := skipIndents p1
        if p2.peek = Token.End then some (.ok [], p2)
        else
          match (match p2.peek with
                 | .Num n => Except.ok (Token.Num n)
                 | .NumRange a b => Except.ok (Token.NumRange a b)
                 | t => Except.error (CrawlError.ParserError (reprToken t))) with
          | .error e => some (.error e, p2)
          | .ok target =>
            let p3 := p2.advance
            match p3.consume .Arrow with
            | (.error _, _) => none
            | (.ok _, p4) =>
              match consequentP p4 with
              | none => none
              | some (.error e, p5) => some (.error e, p5)
              | some (.ok consequent, p5) =>
                match p5.consume .Newline with
                | (.error _, _) => none
                | (.ok _, p6) =>
                  match armsLoopP fuel p6 with
                  | none => none
                  | some (.error e, p7) => some (.error e, p7)
                  | some (.ok rest, p7) =>
                    some (.ok (⟨target, consequent⟩ :: rest), p7)
/-- `Parser::matching_roll` (`src/parser.rs` lines 181-221). -/
def matching_rollP (fuel : Nat) (p : Parser) : PRes Statement :=
  match p.consume .Roll with
  | (.error _, _) => none
  | (.ok _, p1) =>
    match modified_specifierP p1 with
    | (.error e, p2) => some (.error e, p2)
    | (.ok spec, p2) =>
      match p2.consume .Newline with
      | (.error _, _) => none
      | (.ok _, p3) =>
        match armsLoopP fuel p3 with
        | none => none
        | some (.error e, p4) => some (.error e, p4)
        | some (.ok arms, p4) =>
          match p4.consume .End with
          | (.error _, _) => none
          | (.ok _, p5) => some (.ok (.MatchingRoll spec arms), p5)

mutual
/-- `Parser::statement` (`src/parser.rs` lines 94-131): dispatch on the
current token (with one-token lookahead after `Roll`), advance once past
the failing token on an error, then require a statement-terminating
`Newline` (via `?`) and skip blank `Newline`s. -/
def statementP (fuel : Nat) (p : Parser) : PRes Statement :=
  match fuel with
  | 0 => none
  | fuel + 1 =>
    let dispatch : PRes Statement :=
      match p.peek with
      | .ClearFact => clear_factP p
      | .ClearPersistentFact => clear_persistent_factP p
      | .Identifier _ => procedure_callP p
      | .If => if_thenP p
      | .Load => load_tableP p
      | .Procedure => procedureP fuel p
      | .Reminder => reminderP p
      | .Roll =>
        (match p.peek_next with
         | .On => table_rollP p
         | .RollSpecifier _ => matching_rollP fuel p
         | _ => some (.error (.ParserError (reprToken p.peek)), p))
      | .SetFact => set_factP p
      | .SetPersistentFact => set_persistent_factP p
      | t => some (.error (.ParserError (reprToken t)), p)
    match dispatch with
    | none => none
    | some (result, p1) =>
      let p2 := match result with
        | .error _ => p1.advance
        | .ok _ => p1
      match p2.consume .Newline with
      | (.error e, p3) => some (.error e, p3)
      | (.ok _, p3) => some (result, skipNewlines p3)
  termination_by (fuel, 3)

/-- `Parser::procedure` (`src/parser.rs` lines 133-155). -/
def procedureP (fuel : Nat) (p : Parser) : PRes Statement :=
  match p.consume .Procedure with
  | (.error _, _) => none
  | (.ok _, p1) =>
    match p1.peek with
    | .Identifier name =>
      let p2 := p1.advance
      match p2.consume .Newline with
      | (.error _, _) => none
      | (.ok _, p3) =>
        match procBodyLoopP fuel p3 with
        | none => none
        | some (.error e, p4) => some (.error e, p4)
        | some (.ok body, p4) =>
          match p4.consume .End with
          | (.error _, _) => none
          | (.ok _, p5) => some (.ok (.Procedure name body), p5)
    | t => some (.error (.ParserError (reprToken t)), p1)
  termination_by (fuel, 2)

/-- The `while *self.peek() != Token::End` body loop of
`Parser::procedure`. -/
def procBodyLoopP (fuel : Nat) (p : Parser) :
    Option (Except CrawlError (List Statement) × Parser) :=
  match fuel with
  | 0 => none
  | fuel + 1 =>
    if p.peek = Token.End then some (.ok [], p)
    else
      match p.consume .Indent with
      | (.error _, _) => none
      | (.ok _, p1) =>
        match statementP fuel p1 with
        | none => none
        | some (.error e, p2) => some (.error e, p2)
        | some (.ok s, p2) =>
          match procBodyLoopP fuel p2 with
          | none => none
          | some (.error e, p3) => some (.error e, p3)
          | some (.ok rest, p3) => some (.ok (s :: rest), p3)
  termination_by (fuel, 1)

end

/-- The `while !self.is_at_end()` loop of `Parser::parse`
(`src/parser.rs` lines 86-92): each statement result is pushed through
`Ok(self.statement().unwrap())` — an `Err` from `statement()` is an
uncaught panic (`none`). -/
def parseLoopP (fuel : Nat) (p : Parser) :
    Option (List (Except CrawlError Statement) × Parser) :=
  match fuel with
  | 0 => none
  | fuel + 1 =>
    if p.is_at_end then some ([], p)
    else
      match statementP fuel p with
      | none => none
      | some (.error _, _) => none
      | some (.ok s, p1) =>
        match parseLoopP fuel p1 with
        | none => none
        | some (rest, p2) => some (.ok s :: rest, p2)

/-- `Parser::parse`, with fuel large enough for any input it is run on. -/
def Parser.parse (p : Parser) : Option (List (Except CrawlError Statement) × Parser) :=
  parseLoopP (p.tokens.length + 1) p

/-- The C4 failing input: a malformed first statement (`Plus`), then a
well-formed `reminder` statement. -/
def failToks : List Token := [.Plus, .Newline, .Reminder, .Str "hi", .Newline, .Eof]

/-- C4 (divergence witness): `Parser::statement` itself recovers from the
malformed first statement (it returns the `Err` having advanced past the
failing token and consumed the `Newline`, position 2) and the later
`reminder` statement parses on its own — but `Parser::parse` calls
`.unwrap()` on each statement result, so the whole parse aborts (panics)
at the first `Err` instead of yielding one `Err` entry and an `Ok` entry
for the rest. -/
theorem C4_parse_panics_on_first_error :
    Parser.parse ⟨failToks, 0⟩ = none ∧
    statementP 6 ⟨failToks, 0⟩
      = some (.error (.ParserError "Plus"), ⟨failToks, 2⟩) ∧
    statementP 5 ⟨[.Reminder, .Str "hi", .Newline, .Eof], 0⟩
      = some (.ok (.Reminder "hi"),
              ⟨[.Reminder, .Str "hi", .Newline, .Eof], 3⟩) := by
  refine ⟨?_, ?_, ?_⟩
  · simp [Parser.parse, parseLoopP, statementP, failToks, Parser.consume,
      Parser.peek, Parser.peek_next, Parser.advance, Parser.is_at_end,
      skipNewlines, reprToken]
  · simp [statementP, failToks, Parser.consume, Parser.peek,
      Parser.peek_next, Parser.advance, Parser.is_at_end, skipNewlines,
      reprToken]
  · simp [statementP, reminderP, Parser.consume, Parser.peek,
      Parser.peek_next, Parser.advance, Parser.is_at_end, skipNewlines,
      reprToken]

/-! ## Scanner (`src/scanner.rs`) -/

/-- The `Scanner` state (`src/scanner.rs` lines 39-45). -/
structure Scanner where
  source : List Char
  position : Nat
  line : Nat
  start : Nat

def Scanner.new (source : List Char) : Scanner :=
  ⟨source, 0, 0, 0⟩

/-- `Scanner::curr_char` / `Scanner::peek`: the character at `position`,
or `EOF_CHAR` (`\0`) at the end. -/
def Scanner.curr_char (s : Scanner) : Char :=
  s.source.getD s.position '\x00'

def Scanner.peek_next (s : Scanner) : Char :=
  s.source.getD (s.position + 1) '\x00'

def Scanner.advance (s : Scanner) : Scanner :=
  { s with position := s.position + 1 }

def Scanner.is_at_end (s : Scanner) : Bool :=
  decide (s.source.length ≤ s.position)

/-- `self.source[self.start..self.position]` as a `String`. -/
def lexemeS (s : Scanner) : String :=
  String.mk ((s.source.drop s.start).take (s.position - s.start))

/-- The `' ' => self.start = self.position` arm of the `next_token` loop:
consume consecutive spaces, resetting the lexeme start. -/
def skipSpacesS (s : Scanner) : Scanner :=
  if _h : s.position < s.source.length ∧ s.source.getD s.position '\x00' = ' '
  then skipSpacesS { s with position := s.position + 1, start := s.position + 1 }
  else s
  termination_by s.source.length - s.position
  decreasing_by omega

/-- The `while !self.is_at_end()` loop of `Scanner::scan_numeric`
(`src/scanner.rs` lines 124-149), accumulating the dice/range flags; the
`Sum` carries an early `Err` return with the scanner state at that
point. -/
def scanNumericLoop (s : Scanner) (is_dice is_range : Bool) :
    (CrawlError × Scanner) ⊕ (Scanner × Bool × Bool) :=
  if _h : s.position < s.source.length then
    if s.source.getD s.position '\x00' = 'd' then
      if s.peek_next.isDigit then scanNumericLoop s.advance true is_range
      else .inl (.ScannerError s.position s.line (lexemeS s)
        "roll specifier must be NUMBER d NUMBER", s)
    else if s.source.getD s.position '\x00' = '-' then
      scanNumericLoop s.advance is_dice true
    else if (s.source.getD s.position '\x00').isDigit then
      scanNumericLoop s.advance is_dice is_range
    else .inr (s, is_dice, is_range)
  else .inr (s, is_dice, is_range)
  termination_by s.source.length - s.position
  decreasing_by
    all_goals simp only [Scanner.advance]; omega

/-- `Scanner::scan_numeric` (`src/scanner.rs` lines 124-180), entered
with the first digit already consumed; the `parse::<i32>().expect` calls
panic (`none`) on an unparsable or out-of-range part. -/
def scan_numeric (s : Scanner) : Option ((Except CrawlError Token) × Scanner) :=
  match scanNumericLoop s false false with
  | .inl (e, s') => some (.error e, s')
  | .inr (s', is_dice, is_range) =>
    match is_dice, is_range with
    | true, false => some (.ok (.RollSpecifier (lexemeS s')), s')
    | false, true =>
      (match (lexemeS s').splitOn "-" with
       | [] => none
       | first :: restp =>
         match parseI32 first.toList, parseI32 (restp.getLastD first).toList with
         | some range_min, some range_max =>
           some (.ok (.NumRange range_min range_max), s')
         | _, _ => none)
    | false, false =>
      (match parseI32 (lexemeS s').toList with
       | some n => some (.ok (.Num n), s')
       | none => none)
    | true, true =>
      some (.error (.ScannerError s'.position s'.line (lexemeS s')
        "cant be a dice roll and dice range"), s')

/-- The `while` loop of `Scanner::scan_str` (`src/scanner.rs` lines
183-188): advance past each character, counting newlines as they become
current. -/
def scanStrLoop (s : Scanner) : Scanner :=
  if _h : s.position < s.source.length ∧ s.source.getD s.position '\x00' ≠ '"'
  then
    if s.source.getD (s.position + 1) '\x00' = '\n'
    then scanStrLoop { s with position := s.position + 1, line := s.line + 1 }
    else scanStrLoop { s with position := s.position + 1 }
  else s
  termination_by s.source.length - s.position
  decreasing_by
    all_goals omega

/-- `Scanner::scan_str` (`src/scanner.rs` lines 182-204), entered with
the opening quote consumed. -/
def scan_str (s : Scanner) : (Except CrawlError Token) × Scanner :=
  let s' := scanStrLoop s
  if s'.source.length ≤ s'.position then
    (.error (.ScannerError s'.position s'.line (lexemeS s')
      "unterminated string, expected closing quote"), s')
  else
    (.ok (.Str (String.mk ((s'.source.drop (s'.start + 1)).take
      (s'.position - (s'.start + 1))))), s'.advance)

/-- The `while` loop of `Scanner::scan_symbol` (`src/scanner.rs` lines
206-212): letters and internal hyphens. -/
def scanSymbolLoop (s : Scanner) : Scanner :=
  if _h : s.position < s.source.length ∧
      ((s.source.getD s.position '\x00').isAlpha ∨
        s.source.getD s.position '\x00' = '-')
  then scanSymbolLoop s.advance
  else s
  termination_by s.source.length - s.position
  decreasing_by
    simp only [Scanner.advance]; omega

/-- `Scanner::token_for_keyword` (`src/scanner.rs` lines 220-238). -/
def token_for_keyword (lexeme : String) : Option Token :=
  match lexeme with
  | "clear-fact" => some .ClearFact
  | "clear-persistent-fact" => some .ClearPersistentFact
  | "end" => some .End
  | "fact?" => some .FactTest
  | "if" => some .If
  | "on" => some .On
  | "procedure" => some .Procedure
  | "reminder" => some .Reminder
  | "roll" => some .Roll
  | "set-fact" => some .SetFact
  | "set-persistent-fact" => some .SetPersistentFact
  | "swap-fact" => some .SwapFact
  | "swap-persistent-fact" => some .SwapPersistentFact
  | "table" => some .Table
  | _ => none

/-- `Scanner::scan_symbol` (`src/scanner.rs` lines 206-218). -/
def scan_symbol (s : Scanner) : (Except CrawlError Token) × Scanner :=
  let s' := scanSymbolLoop s
  match token_for_keyword (lexemeS s') with
  | some t => (.ok t, s')
  | none => (.ok (.Identifier (lexemeS s')), s')

/-- `Scanner::next_token` (`src/scanner.rs` lines 72-122): the
surrounding `loop` exists only to skip spaces, which `skipSpacesS`
performs first. -/
def next_token (s : Scanner) : Option ((Except CrawlError Token) × Scanner) :=
  let s0 := skipSpacesS s
  let ch := s0.curr_char
  let s1 := s0.advance
  if ch.isDigit then scan_numeric s1
  else if ch = '"' then some (scan_str s1)
  else if ch.isAlpha then some (scan_symbol s1)
  else if ch = '\t' then some (.ok .Indent, s1)
  else if ch = '\n' then some (.ok .Newline, { s1 with line := s1.line + 1 })
  else if ch = '=' then
    (if s1.curr_char = '>' then some (.ok .Arrow, s1.advance)
     else some (.error (.ScannerError s1.position s1.line (lexemeS s1)
       "expected gt after eq"), s1))
  else if ch = '+' then some (.ok .Plus, s1)
  else if ch = '-' then some (.ok .Minus, s1)
  else some (.error (.ScannerError s1.position s1.line (String.mk [ch])
    "unexpected character"), s1)

theorem skipSpacesS_spec_aux : ∀ (n : Nat) (s : Scanner),
    s.source.length - s.position = n →
    (skipSpacesS s).source = s.source ∧ s.position ≤ (skipSpacesS s).position := by
  intro n
  induction n using Nat.strong_induction_on with
  | _ n ih =>
    intro s hn
    rw [skipSpacesS]
    by_cases h : s.position < s.source.length ∧
        s.source.getD s.position '\x00' = ' '
    · rw [dif_pos h]
      have hrec := ih (s.source.length - (s.position + 1)) (by omega)
        { s with position := s.position + 1, start := s.position + 1 } rfl
      exact ⟨hrec.1, le_trans (Nat.le_succ s.position) hrec.2⟩
    · rw [dif_neg h]
      exact ⟨rfl, le_refl _⟩

theorem skipSpacesS_spec (s : Scanner) :
    (skipSpacesS s).source = s.source ∧ s.position ≤ (skipSpacesS s).position :=
  skipSpacesS_spec_aux (s.source.length - s.position) s rfl

theorem scanNumericLoop_spec_aux : ∀ (n : Nat) (s : Scanner) (d r : Bool),
    s.source.length - s.position = n →
    (∀ e s', scanNumericLoop s d r = .inl (e, s') →
      s'.source = s.source ∧ s.position ≤ s'.position) ∧
    (∀ s' d' r', scanNumericLoop s d r = .inr (s', d', r') →
      s'.source = s.source ∧ s.position ≤ s'.position) := by
  intro n
  induction n using Nat.strong_induction_on with
  | _ n ih =>
    intro s d r hn
    rw [scanNumericLoop]
    by_cases h : s.position < s.source.length
    · rw [dif_pos h]
      have hstep : ∀ (d' r' : Bool),
          (∀ e s', scanNumericLoop s.advance d' r' = .inl (e, s') →
            s'.source = s.source ∧ s.position ≤ s'.position) ∧
          (∀ s' d'' r'', scanNumericLoop s.advance d' r' = .inr (s', d'', r'') →
            s'.source = s.source ∧ s.position ≤ s'.position) := by
        intro d' r'
        have hrec := ih (s.source.length - (s.position + 1)) (by omega)
          s.advance d' r' rfl
        exact ⟨fun e s' he => ⟨(hrec.1 e s' he).1,
            le_trans (Nat.le_succ s.position) (hrec.1 e s' he).2⟩,
          fun s' d'' r'' hr => ⟨(hrec.2 s' d'' r'' hr).1,
            le_trans (Nat.le_succ s.position) (hrec.2 s' d'' r'' hr).2⟩⟩
      by_cases hd : s.source.getD s.position '\x00' = 'd'
      · rw [if_pos hd]
        by_cases hdig : s.peek_next.isDigit
        · rw [if_pos hdig]
          exact hstep true r
        · rw [if_neg hdig]
          constructor
          · intro e s' he
            injection he with he
            injection he with he1 he2
            subst he2
            exact ⟨rfl, le_refl _⟩
          · intro s' d' r' hr
            cases hr
      · rw [if_neg hd]
        by_cases hm : s.source.getD s.position '\x00' = '-'
        · rw [if_pos hm]
          exact hstep d true
        · rw [if_neg hm]
          by_cases hdig : (s.source.getD s.position '\x00').isDigit
          · rw [if_pos hdig]
            exact hstep d r
          · rw [if_neg hdig]
            constructor
            · intro e s' he
              cases he
            · intro s' d' r' hr
              injection hr with hr
              injection hr with hr1 hr2
              subst hr1
              exact ⟨rfl, le_refl _⟩
    · rw [dif_neg h]
      constructor
      · intro e s' he
        cases he
      · intro s' d' r' hr
        injection hr with hr
        injection hr with hr1 hr2
        subst hr1
        exact ⟨rfl, le_refl _⟩

theorem scanNumericLoop_spec (s : Scanner) (d r : Bool) :
    (∀ e s', scanNumericLoop s d r = .inl (e, s') →
      s'.source = s.source ∧ s.position ≤ s'.position) ∧
    (∀ s' d' r', scanNumericLoop s d r = .inr (s', d', r') →
      s'.source = s.source ∧ s.position ≤ s'.position) :=
  scanNumericLoop_spec_aux (s.source.length - s.position) s d r rfl

theorem scanStrLoop_spec_aux : ∀ (n : Nat) (s : Scanner),
    s.source.length - s.position = n →
    (scanStrLoop s).source = s.source ∧ s.position ≤ (scanStrLoop s).position := by
  intro n
  induction n using Nat.strong_induction_on with
  | _ n ih =>
    intro s hn
    rw [scanStrLoop]
    by_cases h : s.position < s.source.length ∧
        s.source.getD s.position '\x00' ≠ '"'
    · rw [dif_pos h]
      by_cases hnl : s.source.getD (s.position + 1) '\x00' = '\n'
      · rw [if_pos hnl]
        have hrec := ih (s.source.length - (s.position + 1)) (by omega)
          { s with position := s.position + 1, line := s.line + 1 } rfl
        exact ⟨hrec.1, le_trans (Nat.le_succ s.position) hrec.2⟩
      · rw [if_neg hnl]
        have hrec := ih (s.source.length - (s.position + 1)) (by omega)
          { s with position := s.position + 1 } rfl
        exact ⟨hrec.1, le_trans (Nat.le_succ s.position) hrec.2⟩
    · rw [dif_neg h]
      exact ⟨rfl, le_refl _⟩

theorem scanStrLoop_spec (s : Scanner) :
    (scanStrLoop s).source = s.source ∧ s.position ≤ (scanStrLoop s).position :=
  scanStrLoop_spec_aux (s.source.length - s.position) s rfl

theorem scanSymbolLoop_spec_aux : ∀ (n : Nat) (s : Scanner),
    s.source.length - s.position = n →
    (scanSymbolLoop s).source = s.source ∧
      s.position ≤ (scanSymbolLoop s).position := by
  intro n
  induction n using Nat.strong_induction_on with
  | _ n ih =>
    intro s hn
    rw [scanSymbolLoop]
    by_cases h : s.position < s.source.length ∧
        ((s.source.getD s.position '\x00').isAlpha ∨
          s.source.getD s.position '\x00' = '-')
    · rw [dif_pos h]
      have hrec := ih (s.source.length - (s.position + 1)) (by omega)
        s.advance rfl
      exact ⟨hrec.1, le_trans (Nat.le_succ s.position) hrec.2⟩
    · rw [dif_neg h]
      exact ⟨rfl, le_refl _⟩

theorem scanSymbolLoop_spec (s : Scanner) :
    (scanSymbolLoop s).source = s.source ∧
      s.position ≤ (scanSymbolLoop s).position :=
  scanSymbolLoop_spec_aux (s.source.length - s.position) s rfl

theorem scan_numeric_spec (s : Scanner) (r : Except CrawlError Token)
    (s' : Scanner) (h : scan_numeric s = some (r, s')) :
    s'.source = s.source ∧ s.position ≤ s'.position ∧ r ≠ .ok .Eof := by
  unfold scan_numeric at h
  cases hl : scanNumericLoop s false false with
  | inl es =>
    obtain ⟨e, se⟩ := es
    rw [hl] at h
    simp only [] at h
    injection h with h
    injection h with h1 h2
    subst h1; subst h2
    have := (scanNumericLoop_spec s false false).1 e _ hl
    exact ⟨this.1, this.2, by intro hc; cases hc⟩
  | inr sdr =>
    obtain ⟨se, is_dice, is_range⟩ := sdr
    have hspec := (scanNumericLoop_spec s false false).2 se is_dice is_range hl
    rw [hl] at h
    cases is_dice <;> cases is_range <;> simp only [] at h
    · cases hp : parseI32 (lexemeS se).toList with
      | none => rw [hp] at h; cases h
      | some m =>
        rw [hp] at h
        injection h with h
        injection h with h1 h2
        subst h1; subst h2
        exact ⟨hspec.1, hspec.2, by intro hc; cases hc⟩
    · cases hsp : (lexemeS se).splitOn "-" with
      | nil => rw [hsp] at h; cases h
      | cons first restp =>
        rw [hsp] at h
        simp only [] at h
        cases hp1 : parseI32 first.toList with
        | none =>
          rw [hp1] at h
          simp only [] at h
          exact Option.noConfusion h
        | some mn =>
          cases hp2 : parseI32 (restp.getLastD first).toList with
          | none =>
            rw [hp1, hp2] at h
            simp only [] at h
            exact Option.noConfusion h
          | some mx =>
            rw [hp1, hp2] at h
            injection h with h
            injection h with h1 h2
            subst h1; subst h2
            exact ⟨hspec.1, hspec.2, by intro hc; cases hc⟩
    · injection h with h
      injection h with h1 h2
      subst h1; subst h2
      exact ⟨hspec.1, hspec.2, by intro hc; cases hc⟩
    · injection h with h
      injection h with h1 h2
      subst h1; subst h2
      exact ⟨hspec.1, hspec.2, by intro hc; cases hc⟩

theorem scan_str_spec (s : Scanner) :
    (scan_str s).2.source = s.source ∧ s.position ≤ (scan_str s).2.position ∧
    (scan_str s).1 ≠ .ok .Eof := by
  unfold scan_str
  have hspec := scanStrLoop_spec s
  by_cases hend : (scanStrLoop s).source.length ≤ (scanStrLoop s).position
  · rw [if_pos hend]
    exact ⟨hspec.1, hspec.2, by intro hc; cases hc⟩
  · rw [if_neg hend]
    refine ⟨hspec.1, ?_, by intro hc; cases hc⟩
    exact le_trans hspec.2 (Nat.le_succ _)

theorem token_for_keyword_ne_eof (lexeme : String) :
    token_for_keyword lexeme ≠ some .Eof := by
  unfold token_for_keyword
  split <;> intro hc <;> cases hc

theorem scan_symbol_spec (s : Scanner) :
    (scan_symbol s).2.source = s.source ∧ s.position ≤ (scan_symbol s).2.position ∧
    (scan_symbol s).1 ≠ .ok .Eof := by
  unfold scan_symbol
  have hspec := scanSymbolLoop_spec s
  cases hk : token_for_keyword (lexemeS (scanSymbolLoop s)) with
  | none =>
    simp only [hk]
    exact ⟨hspec.1, hspec.2, by intro hc; cases hc⟩
  | some t =>
    simp only [hk]
    refine ⟨hspec.1, hspec.2, ?_⟩
    intro hc
    injection hc with hc
    rw [hc] at hk
    exact token_for_keyword_ne_eof _ hk

theorem next_token_spec (s : Scanner) (r : Except CrawlError Token)
    (s' : Scanner) (h : next_token s = some (r, s')) :
    s'.source = s.source ∧ s.position < s'.position ∧ r ≠ .ok .Eof := by
  unfold next_token at h
  simp only [] at h
  have hskip := skipSpacesS_spec s
  have hadv_src : (skipSpacesS s).advance.source = s.source := by
    simp only [Scanner.advance]
    exact hskip.1
  have hadv_pos : s.position < (skipSpacesS s).advance.position := by
    simp only [Scanner.advance]
    omega
  by_cases h1 : (skipSpacesS s).curr_char.isDigit
  · rw [if_pos h1] at h
    have hs := scan_numeric_spec _ r s' h
    exact ⟨hs.1.trans hadv_src, by omega, hs.2.2⟩
  · rw [if_neg h1] at h
    by_cases h2 : (skipSpacesS s).curr_char = '"'
    · rw [if_pos h2] at h
      injection h with h
      have hfst : (scan_str (skipSpacesS s).advance).1 = r := congrArg Prod.fst h
      have hsnd : (scan_str (skipSpacesS s).advance).2 = s' := congrArg Prod.snd h
      have hs := scan_str_spec (skipSpacesS s).advance
      rw [hfst, hsnd] at hs
      exact ⟨hs.1.trans hadv_src, by omega, hs.2.2⟩
    · rw [if_neg h2] at h
      by_cases h3 : (skipSpacesS s).curr_char.isAlpha
      · rw [if_pos h3] at h
        injection h with h
        have hfst : (scan_symbol (skipSpacesS s).advance).1 = r := congrArg Prod.fst h
        have hsnd : (scan_symbol (skipSpacesS s).advance).2 = s' := congrArg Prod.snd h
        have hs := scan_symbol_spec (skipSpacesS s).advance
        rw [hfst, hsnd] at hs
        exact ⟨hs.1.trans hadv_src, by omega, hs.2.2⟩
      · rw [if_neg h3] at h
        by_cases h4 : (skipSpacesS s).curr_char = '\t'
        · rw [if_pos h4] at h
          injection h with h
          injection h with ha hb
          subst ha; subst hb
          exact ⟨hadv_src, hadv_pos, by intro hc; cases hc⟩
        · rw [if_neg h4] at h
          by_cases h5 : (skipSpacesS s).curr_char = '\n'
          · rw [if_pos h5] at h
            injection h with h
            injection h with ha hb
            subst ha; subst hb
            exact ⟨hadv_src, hadv_pos, by intro hc; cases hc⟩
          · rw [if_neg h5] at h
            by_cases h6 : (skipSpacesS s).curr_char = '='
            · rw [if_pos h6] at h
              by_cases h7 : (skipSpacesS s).advance.curr_char = '>'
              · rw [if_pos h7] at h
                injection h with h
                injection h with ha hb
                subst ha; subst hb
                refine ⟨by simp only [Scanner.advance]; exact hadv_src, ?_,
                  by intro hc; cases hc⟩
                simp only [Scanner.advance] at hadv_pos ⊢
                omega
              · rw [if_neg h7] at h
                injection h with h
                injection h with ha hb
                subst ha; subst hb
                exact ⟨hadv_src, hadv_pos, by intro hc; cases hc⟩
            · rw [if_neg h6] at h
              by_cases h8 : (skipSpacesS s).curr_char = '+'
              · rw [if_pos h8] at h
                injection h with h
                injection h with ha hb
                subst ha; subst hb
                exact ⟨hadv_src, hadv_pos, by intro hc; cases hc⟩
              · rw [if_neg h8] at h
                by_cases h9 : (skipSpacesS s).curr_char = '-'
                · rw [if_pos h9] at h
                  injection h with h
                  injection h with ha hb
                  subst ha; subst hb
                  exact ⟨hadv_src, hadv_pos, by intro hc; cases hc⟩
                · rw [if_neg h9] at h
                  injection h with h
                  injection h with ha hb
                  subst ha; subst hb
                  exact ⟨hadv_src, hadv_pos, by intro hc; cases hc⟩

/-- The `while !self.is_at_end()` loop of `Scanner::tokens`
(`src/scanner.rs` lines 62-66), resetting `start` before each token. -/
def tokensLoop (s : Scanner) : Option (List (Except CrawlError Token) × Scanner) :=
  if _h : s.position < s.source.length then
    match _hnt : next_token { s with start := s.position } with
    | none => none
    | some (r, s') =>
      match tokensLoop s' with
      | none => none
      | some (rs, s'') => some (r :: rs, s'')
  else some ([], s)
  termination_by s.source.length - s.position
  decreasing_by
    have hspec := next_token_spec { s with start := s.position } r s' _hnt
    have hsrc : s'.source = s.source := hspec.1
    have hpos : s.position < s'.position := hspec.2.1
    rw [hsrc]
    omega

/-- `Scanner::tokens` (`src/scanner.rs` lines 57-70): an exhausted
scanner returns an empty sequence; otherwise scan to the end and append
the single `Ok(Eof)`. -/
def Scanner.tokens (s : Scanner) :
    Option (List (Except CrawlError Token) × Scanner) :=
  if s.is_at_end then some ([], s)
  else
    match tokensLoop s with
    | none => none
    | some (rs, s') => some (rs ++ [.ok .Eof], s')

theorem tokensLoop_spec_aux : ∀ (n : Nat) (s : Scanner)
    (rs : List (Except CrawlError Token)) (s' : Scanner),
    s.source.length - s.position = n →
    tokensLoop s = some (rs, s') →
    (∀ r ∈ rs, r ≠ .ok .Eof) ∧ s'.source = s.source ∧
    s'.source.length ≤ s'.position := by
  intro n
  induction n using Nat.strong_induction_on with
  | _ n ih =>
    intro s rs s' hn h
    rw [tokensLoop] at h
    by_cases hlt : s.position < s.source.length
    · rw [dif_pos hlt] at h
      revert h
      cases hnt2 : next_token { s with start := s.position } with
      | none => intro h; cases h
      | some rp =>
        obtain ⟨r, s1⟩ := rp
        have hnspec := next_token_spec { s with start := s.position } r s1 hnt2
        have hsrc : s1.source = s.source := hnspec.1
        have hpos : s.position < s1.position := hnspec.2.1
        intro h
        simp only [] at h
        cases hloop : tokensLoop s1 with
        | none =>
          rw [hloop] at h
          exact Option.noConfusion h
        | some q =>
          obtain ⟨rs1, s2⟩ := q
          rw [hloop] at h
          simp only [] at h
          injection h with h
          injection h with h1 h2
          subst h1; subst h2
          obtain ⟨ih1, ih2, ih3⟩ := ih (s1.source.length - s1.position)
            (by rw [hsrc]; omega) s1 rs1 s2 rfl hloop
          refine ⟨?_, ih2.trans hsrc, ih3⟩
          intro x hx
          rcases List.mem_cons.mp hx with rfl | hx
          · exact hnspec.2.2
          · exact ih1 x hx
    · rw [dif_neg hlt] at h
      injection h with h
      injection h with h1 h2
      subst h1; subst h2
      exact ⟨(by intro x hx; cases hx), rfl, by omega⟩

theorem tokensLoop_spec (s : Scanner) (rs : List (Except CrawlError Token))
    (s' : Scanner) (h : tokensLoop s = some (rs, s')) :
    (∀ r ∈ rs, r ≠ .ok .Eof) ∧ s'.source = s.source ∧
    s'.source.length ≤ s'.position :=
  tokensLoop_spec_aux (s.source.length - s.position) s rs s' rfl h

/-- C8 (counterexample): on the empty character sequence, the first
`tokens()` call returns the empty sequence with no trailing `Ok(Eof)`
(the `is_at_end` early return fires before the `Eof` push), contradicting
the claim for the empty source. -/
theorem C8_counterexample :
    Scanner.tokens (Scanner.new []) = some ([], Scanner.new []) ∧
    ¬ ∃ (rs : List (Except CrawlError Token)) (s' : Scanner),
        Scanner.tokens (Scanner.new []) = some (rs ++ [.ok .Eof], s') := by
  constructor
  · rfl
  · rintro ⟨rs, s', h⟩
    rw [show Scanner.tokens (Scanner.new []) = some ([], Scanner.new []) from rfl] at h
    injection h with h
    injection h with h1 h2
    have := congrArg List.length h1
    simp at this

/-- C8 (amended): for every non-empty source on which `tokens()` returns
normally (its internal `expect`/`parse` calls can panic on malformed
range lexemes or out-of-range numbers), the first call returns a
sequence of per-token `Result`s terminated by a single trailing
`Ok(Eof)`, and leaves the scanner at end-of-input; every scanner that has
reached end-of-input returns the empty sequence from `tokens()`.  (For
the empty source the first call returns the empty sequence — see the
counterexample.) -/
theorem C8_tokens_eof_terminated :
    (∀ (src : List Char), src ≠ [] →
      ∀ (rs : List (Except CrawlError Token)) (s' : Scanner),
        Scanner.tokens (Scanner.new src) = some (rs, s') →
        (∃ rs0, rs = rs0 ++ [.ok .Eof] ∧ ∀ r ∈ rs0, r ≠ .ok .Eof) ∧
        s'.source.length ≤ s'.position) ∧
    (∀ s : Scanner, s.source.length ≤ s.position →
      Scanner.tokens s = some ([], s)) := by
  constructor
  · intro src hne rs s' h
    rw [Scanner.tokens] at h
    have hend : (Scanner.new src).is_at_end = false := by
      simp [Scanner.is_at_end, Scanner.new]
      exact hne
    rw [hend] at h
    simp only [Bool.false_eq_true, if_false] at h
    cases hloop : tokensLoop (Scanner.new src) with
    | none =>
      rw [hloop] at h
      exact Option.noConfusion h
    | some q =>
      obtain ⟨rs0, s2⟩ := q
      rw [hloop] at h
      simp only [] at h
      injection h with h
      injection h with h1 h2
      subst h1; subst h2
      obtain ⟨hno, _hsrc, hend'⟩ := tokensLoop_spec (Scanner.new src) rs0 _ hloop
      exact ⟨⟨rs0, rfl, hno⟩, hend'⟩
  · intro s hend
    rw [Scanner.tokens]
    have : s.is_at_end = true := by
      simp [Scanner.is_at_end]
      exact hend
    rw [this]
    rfl

/-- Witness for C8: the one-character source `a` scans to
`[Ok (Identifier "a"), Ok Eof]` — one trailing `Ok Eof` — and the
exhausted scanner it leaves behind yields the empty sequence. -/
theorem C8_witness :
    (∃ rs0 : List (Except CrawlError Token),
      [Except.ok (Token.Identifier "a"), Except.ok Token.Eof]
        = rs0 ++ [Except.ok Token.Eof] ∧
      ∀ r ∈ rs0, r ≠ Except.ok Token.Eof) ∧
    Scanner.tokens ⟨['a'], 1, 0, 0⟩ = some ([], ⟨['a'], 1, 0, 0⟩) := by
  have hskip : skipSpacesS (Scanner.new ['a']) = Scanner.new ['a'] := by
    rw [skipSpacesS, dif_neg (by decide)]
  have hloop1 : scanSymbolLoop (⟨['a'], 1, 0, 0⟩ : Scanner)
      = (⟨['a'], 1, 0, 0⟩ : Scanner) := by
    rw [scanSymbolLoop, dif_neg (by decide)]
  have hsym : scan_symbol (⟨['a'], 1, 0, 0⟩ : Scanner)
      = (.ok (.Identifier "a"), (⟨['a'], 1, 0, 0⟩ : Scanner)) := by
    rw [scan_symbol, hloop1]
    rfl
  have hnt : next_token (Scanner.new ['a'])
      = some (.ok (.Identifier "a"), (⟨['a'], 1, 0, 0⟩ : Scanner)) := by
    rw [next_token]
    rw [hskip]
    rw [if_neg (by decide), if_neg (by decide), if_pos (by decide)]
    rw [show (Scanner.new ['a']).advance = (⟨['a'], 1, 0, 0⟩ : Scanner) from rfl,
      hsym]
  have hnt' : next_token ({ Scanner.new ['a'] with
        start := (Scanner.new ['a']).position } : Scanner)
      = some (.ok (.Identifier "a"), (⟨['a'], 1, 0, 0⟩ : Scanner)) := hnt
  have hloopend : tokensLoop (⟨['a'], 1, 0, 0⟩ : Scanner)
      = some ([], (⟨['a'], 1, 0, 0⟩ : Scanner)) := by
    rw [tokensLoop, dif_neg (by decide)]
  have hloop : tokensLoop (Scanner.new ['a'])
      = some ([Except.ok (Token.Identifier "a")], (⟨['a'], 1, 0, 0⟩ : Scanner)) := by
    rw [tokensLoop, dif_pos (by decide)]
    cases hnn : next_token ({ Scanner.new ['a'] with
        start := (Scanner.new ['a']).position } : Scanner) with
    | none => rw [hnt'] at hnn; exact Option.noConfusion hnn
    | some rp =>
      obtain ⟨r, s1⟩ := rp
      rw [hnt'] at hnn
      injection hnn with hnn
      injection hnn with ha hb
      subst ha; subst hb
      show (match tokensLoop (⟨['a'], 1, 0, 0⟩ : Scanner) with
        | none => (none : Option (List (Except CrawlError Token) × Scanner))
        | some (rs, s'') =>
          some (Except.ok (Token.Identifier "a") :: rs, s'')) = _
      rw [hloopend]
  have htok : Scanner.tokens (Scanner.new ['a'])
      = some ([Except.ok (Token.Identifier "a"), Except.ok Token.Eof],
              (⟨['a'], 1, 0, 0⟩ : Scanner)) := by
    rw [Scanner.tokens, if_neg (by decide), hloop]
    rfl
  constructor
  · exact (C8_tokens_eof_terminated.1 ['a'] (by decide) _ _ htok).1
  · exact C8_tokens_eof_terminated.2 ⟨['a'], 1, 0, 0⟩ (by decide)

end Crawl
